import Mathlib

/-!
Verification of the board-game-search query-compilation and pagination
subsystem.  The definitions below are a shallow embedding of the
TypeScript sources (`src/pages/api/search.ts`, `src/lib/api.ts`,
`src/pages/index.tsx`, `src/redux/filters.ts`, and the `/api/tags`
handler): JavaScript values are modelled with `Option`, `Sum`, `List`,
`String`, `Int` and `Rat`, and the JSON bodies the handlers build are
modelled with small inductive types mirroring their exact shape.
-/

namespace BGS

/-- Model of a Next.js query-parameter value `req.query[k]`, whose
TypeScript type is `string | string[] | undefined`. -/
abbrev QP := Option (Sum String (List String))

/-- JavaScript truthiness of a `string | string[] | undefined` value:
`undefined` and the empty string are falsy, every array (even empty) and
every non-empty string is truthy. -/
def truthy (p : QP) : Bool :=
  match p with
  | none => false
  | some (.inl s) => !(s == "")
  | some (.inr _) => true

/-- Embedding of the `reverse` computation in the `/api/search` handler:
`typeof req.query["reverse"] === "string" ? req.query["reverse"] === "1" : false`. -/
def parseReverse (p : QP) : Bool :=
  match p with
  | some (.inl s) => s == "1"
  | _ => false

/-- Direction of an Elasticsearch sort clause. -/
inductive SortOrder where
  | asc
  | desc
deriving DecidableEq, Repr

/-- One element of the handler's `sort` array.  `score` is the literal
string element `"_score"` (whose engine-default order is descending);
`field f o m` is the object `{ f: { order: o } }`, with `m = true` when
the object also carries `missing: "_last"`. -/
inductive SortClause where
  | score
  | field (name : String) (order : SortOrder) (missingLast : Bool)
deriving DecidableEq, Repr

/-- Embedding of `createSortClause` from `src/pages/api/search.ts`
(lines 116-130).  The `!params` guard makes `undefined` and `""` yield
no clause; otherwise the switch scrutinee is the string itself or the
first array element (`undefined` for an empty array falls to `default`). -/
def createSortClause (params : QP) (reverse : Bool) : Option SortClause :=
  match params with
  | none => none
  | some (.inl "") => none
  | some v =>
    match (match v with | .inl s => some s | .inr l => l.head?) with
    | some "rank" => some (.field "rank" (if reverse then .desc else .asc) false)
    | some "rating" => some (.field "rating" (if reverse then .asc else .desc) false)
    | some "weight" => some (.field "weight" (if reverse then .desc else .asc) true)
    | _ => none

/-- Embedding of the `sort:` array built by the `/api/search` handler
(lines 207-212): the optional primary clause, the literal `"_score"`,
a rank-ascending clause added only when `req.query["keywords"]` is
falsy, the id clause, with `undefined` entries filtered out. -/
def handlerSortList (sortP keywordsP reverseP : QP) : List SortClause :=
  let reverse := parseReverse reverseP
  ([createSortClause sortP reverse,
    some .score,
    if truthy keywordsP then none else some (.field "rank" .asc false),
    some (.field "id" (if reverse then .desc else .asc) false)]).reduceOption

/-- A `{ range: { field: { gte?, lte? } } }` leaf predicate. -/
structure RangeAtom where
  name : String
  gte : Option Int
  lte : Option Int
deriving DecidableEq, Repr

/-- A value of one of the `*_RANGES` tables in `src/pages/api/search.ts`:
either a bare range object or `{ bool: { must: [ranges...] } }`. -/
inductive FamilyPred where
  | atom (r : RangeAtom)
  | allOf (rs : List RangeAtom)
deriving DecidableEq, Repr

/-- The `{ bool: { should: [...] } }` wrapper produced by
`createFilterClause` for one bucket family. -/
inductive FilterClause where
  | anyOf (ps : List FamilyPred)
deriving DecidableEq, Repr

/-- `AGE_RANGES` (search.ts lines 6-12), keyed by the `Filters` enum
string values from `src/lib/api.ts`. -/
def AGE_RANGES : List (String × FamilyPred) :=
  [("0t4", .atom ⟨"min_age", some 1, some 4⟩),
   ("5t10", .atom ⟨"min_age", some 5, some 10⟩),
   ("11t17", .atom ⟨"min_age", some 11, some 17⟩),
   ("18t20", .atom ⟨"min_age", some 18, some 20⟩),
   ("21p", .atom ⟨"min_age", some 21, none⟩)]

/-- `RANK_RANGES` (search.ts lines 14-18). -/
def RANK_RANGES : List (String × FamilyPred) :=
  [("t2500", .atom ⟨"rank", none, some 2500⟩),
   ("t500", .atom ⟨"rank", none, some 500⟩),
   ("t100", .atom ⟨"rank", none, some 100⟩)]

/-- `RATING_RANGES` (search.ts lines 20-24). -/
def RATING_RANGES : List (String × FamilyPred) :=
  [("2p", .atom ⟨"rating", some 2, none⟩),
   ("5p", .atom ⟨"rating", some 5, none⟩),
   ("8p", .atom ⟨"rating", some 8, none⟩)]

/-- `RATING_COUNT_RANGES` (search.ts lines 26-30). -/
def RATING_COUNT_RANGES : List (String × FamilyPred) :=
  [("100p", .atom ⟨"num_ratings", some 100, none⟩),
   ("1kp", .atom ⟨"num_ratings", some 1000, none⟩),
   ("10kp", .atom ⟨"num_ratings", some 10000, none⟩)]

/-- `WEIGHT_RANGES` (search.ts lines 32-37). -/
def WEIGHT_RANGES : List (String × FamilyPred) :=
  [("1t2", .atom ⟨"weight", some 1, some 2⟩),
   ("2t3", .atom ⟨"weight", some 2, some 3⟩),
   ("3t4", .atom ⟨"weight", some 3, some 4⟩),
   ("4t5", .atom ⟨"weight", some 4, some 5⟩)]

/-- `PLAYTIME_RANGES` (search.ts lines 39-65). -/
def PLAYTIME_RANGES : List (String × FamilyPred) :=
  [("0t30", .allOf [⟨"min_playtime", none, some 30⟩, ⟨"max_playtime", some 0, none⟩]),
   ("30t60", .allOf [⟨"min_playtime", none, some 60⟩, ⟨"max_playtime", some 30, none⟩]),
   ("60t120", .allOf [⟨"min_playtime", none, some 120⟩, ⟨"max_playtime", some 60, none⟩]),
   ("120p", .atom ⟨"max_playtime", some 120, none⟩)]

/-- `PLAYERS_RANGES` (search.ts lines 67-101). -/
def PLAYERS_RANGES : List (String × FamilyPred) :=
  [("1", .allOf [⟨"min_players", none, some 1⟩, ⟨"max_players", some 1, none⟩]),
   ("2", .allOf [⟨"min_players", none, some 2⟩, ⟨"max_players", some 2, none⟩]),
   ("3", .allOf [⟨"min_players", none, some 3⟩, ⟨"max_players", some 3, none⟩]),
   ("4", .allOf [⟨"min_players", none, some 4⟩, ⟨"max_players", some 4, none⟩]),
   ("5p", .atom ⟨"max_players", some 5, none⟩)]

/-- Membership test matching `Object.keys(ranges).some((filt) => filt === item)`. -/
def knownKey (ranges : List (String × FamilyPred)) (item : String) : Bool :=
  ranges.any (fun kv => kv.1 == item)

/-- Embedding of `createFilterClause` (search.ts lines 103-114): falsy
params give no clause; otherwise the selected values are restricted to
the table's keys, mapped to their predicates, and wrapped in a
`bool/should` unless nothing survived. -/
def createFilterClause (ranges : List (String × FamilyPred)) (params : QP) :
    Option FilterClause :=
  match params with
  | none => none
  | some (.inl "") => none
  | some v =>
    let items := match v with | .inl s => [s] | .inr l => l
    let filts := (items.filter (knownKey ranges)).filterMap
      (fun item => ranges.lookup item)
    if filts.isEmpty then none else some (.anyOf filts)

/-- The `filter:` group of the handler's query (lines 220-228): the seven
per-family clauses in source order with `undefined` entries removed. -/
def handlerFilterGroup (q : String → QP) : List FilterClause :=
  ([createFilterClause AGE_RANGES (q "age"),
    createFilterClause RANK_RANGES (q "rank"),
    createFilterClause RATING_RANGES (q "rating"),
    createFilterClause RATING_COUNT_RANGES (q "ratingCount"),
    createFilterClause WEIGHT_RANGES (q "weight"),
    createFilterClause PLAYTIME_RANGES (q "playtime"),
    createFilterClause PLAYERS_RANGES (q "players")]).reduceOption

/-- A JavaScript number as produced by the numeric conversions the
handler uses: a rational value, a signed infinity, or NaN.  (Doubles are
modelled as exact rationals; every constant in the sources is exactly
representable.) -/
inductive JSNum where
  | num (q : ℚ)
  | inf (neg : Bool)
  | nan
deriving DecidableEq, Repr

/-- ASCII JavaScript whitespace (the Unicode spaces are not modelled;
no input in this development contains them). -/
def jsIsSpace (c : Char) : Bool :=
  c == ' ' || c == '\t' || c == '\n' || c == '\r'

/-- Numeric value of an ASCII digit character. -/
def digitVal (c : Char) : ℕ := c.toNat - 48

/-- Value of a big-endian list of decimal digit characters. -/
def digitsVal (cs : List Char) : ℕ :=
  cs.foldl (fun a c => 10 * a + digitVal c) 0

/-- Splits an optional leading `+`/`-` sign, returning whether the value
is negated and the remaining characters. -/
def splitSign : List Char → Bool × List Char
  | [] => (false, [])
  | c :: t =>
    if c = '-' then (true, t)
    else if c = '+' then (false, t)
    else (false, c :: t)

/-- Embedding of JavaScript `Number.parseInt` on the inputs this code
path receives (radix-10; the automatic `0x` hex detection is not
modelled, as cursor tokens and tag ids are decimal): skip whitespace,
read an optional sign and then leading digits, NaN when there are none. -/
def parseIntJS (s : String) : JSNum :=
  let cs := s.data.dropWhile jsIsSpace
  let (neg, cs2) := splitSign cs
  let ds := cs2.takeWhile Char.isDigit
  if ds.isEmpty then .nan
  else .num ((if neg then (-1 : ℚ) else 1) * (digitsVal ds : ℚ))

/-- Exponent suffix for `parseFloat`: an optional sign and digits; an
ill-formed exponent is ignored (JavaScript takes the longest valid
literal prefix, so `parseFloat("1.5e")` is `1.5`). -/
def parseFloatExp (t : List Char) : ℤ :=
  let (eneg, t2) := splitSign t
  let ed := t2.takeWhile Char.isDigit
  if ed.isEmpty then 0 else (if eneg then -1 else 1) * (digitsVal ed : ℤ)

/-- The optional `. digits` fraction part of a float literal: returns
the fraction digits and the remainder. -/
def parseFracPart : List Char → List Char × List Char
  | '.' :: t => (t.takeWhile Char.isDigit, t.dropWhile Char.isDigit)
  | r => ([], r)

/-- The optional `e`/`E` exponent part of a float literal. -/
def parseExpPart : List Char → ℤ
  | 'e' :: t => parseFloatExp t
  | 'E' :: t => parseFloatExp t
  | _ => 0

/-- Embedding of JavaScript `Number.parseFloat`: longest prefix of the
form `[sign] digits [. digits] [e [sign] digits]` (or an `Infinity`
prefix), NaN if no digit is found. -/
def parseFloatJS (s : String) : JSNum :=
  let cs := s.data.dropWhile jsIsSpace
  let (neg, cs2) := splitSign cs
  if "Infinity".data.isPrefixOf cs2 then .inf neg
  else
    let ip := cs2.takeWhile Char.isDigit
    let r1 := cs2.dropWhile Char.isDigit
    let (fp, r2) := parseFracPart r1
    if ip.isEmpty && fp.isEmpty then .nan
    else
      .num ((if neg then (-1 : ℚ) else 1) *
        ((digitsVal ip : ℚ) + (digitsVal fp : ℚ) / 10 ^ fp.length) *
        10 ^ parseExpPart r2)

/-- Embedding of JavaScript `Number(string)` on decimal inputs: the
trimmed string must be empty (value 0), `Infinity`, or an entirely
consumed decimal literal with optional fraction and exponent; anything
else (including the unmodelled hex/octal literals) is NaN. -/
def jsNumber (s : String) : JSNum :=
  let cs := (s.data.dropWhile jsIsSpace).reverse.dropWhile jsIsSpace |>.reverse
  if cs.isEmpty then .num 0
  else
    let (neg, cs2) := splitSign cs
    if cs2 = "Infinity".data then .inf neg
    else
      let ip := cs2.takeWhile Char.isDigit
      let r1 := cs2.dropWhile Char.isDigit
      let (fp, r2) := match r1 with
        | '.' :: t => (t.takeWhile Char.isDigit, t.dropWhile Char.isDigit)
        | _ => ([], r1)
      if ip.isEmpty && fp.isEmpty then .nan
      else
        let mant : ℚ := (digitsVal ip : ℚ) + (digitsVal fp : ℚ) / 10 ^ fp.length
        let signed : ℚ := (if neg then (-1 : ℚ) else 1) * mant
        match r2 with
        | [] => .num signed
        | 'e' :: t =>
          let (eneg, t2) := splitSign t
          let ed := t2.takeWhile Char.isDigit
          if ed.isEmpty || !(t2.dropWhile Char.isDigit).isEmpty then .nan
          else .num (signed * 10 ^ ((if eneg then -1 else 1) * (digitsVal ed : ℤ)))
        | 'E' :: t =>
          let (eneg, t2) := splitSign t
          let ed := t2.takeWhile Char.isDigit
          if ed.isEmpty || !(t2.dropWhile Char.isDigit).isEmpty then .nan
          else .num (signed * 10 ^ ((if eneg then -1 else 1) * (digitsVal ed : ℤ)))
        | _ => .nan

/-- `Number.isInteger`. -/
def isIntegerJS (n : JSNum) : Bool :=
  match n with
  | .num q => q.den == 1
  | _ => false

/-- JavaScript `String.prototype.includes`: some tail of `s` starts
with `pat`. -/
def jsIncludes (s pat : String) : Bool :=
  s.data.tails.any (fun t => pat.data.isPrefixOf t)

/-- JavaScript `String.prototype.trim` (ASCII whitespace). -/
def jsTrim (s : String) : String :=
  ⟨((s.data.dropWhile jsIsSpace).reverse.dropWhile jsIsSpace).reverse⟩

/-- `Array.prototype.map` with the element index, as in
`arr.map((item, i, arr) => ...)`. -/
def mapIdxFrom {α β : Type} (f : ℕ → α → β) : ℕ → List α → List β
  | _, [] => []
  | i, a :: t => f i a :: mapIdxFrom f (i + 1) t

/-- A decoded cursor element as sent to the engine: either a string
passed through or a number. -/
inductive DecVal where
  | str (s : String)
  | jnum (n : JSNum)
deriving DecidableEq, Repr

/-- Decoding of one non-final cursor token (search.ts lines 155-163):
tokens containing `Infinity` pass through as strings, tokens containing
a dot are parsed as floats, everything else as integers. -/
def decodeCursorTok (tok : String) : DecVal :=
  if jsIncludes tok "Infinity" then .str tok
  else if tok.data.contains '.' then .jnum (parseFloatJS tok)
  else .jnum (parseIntJS tok)

/-- Embedding of `createSearchAfterClause` (search.ts lines 149-167):
falsy params (absent, or a single empty string) give no `search_after`;
otherwise each token except the last is decoded by content, and the
final token is returned unchanged. -/
def createSearchAfterClause (params : QP) : Option (List DecVal) :=
  match params with
  | none => none
  | some (.inl "") => none
  | some v =>
    let arr := match v with | .inl s => [s] | .inr l => l
    some (mapIdxFrom (fun i item =>
      if i != arr.length - 1 then decodeCursorTok item else .str item) 0 arr)

/-- The `multi_match` clause object built for keyword search. -/
structure MultiMatch where
  query : String
  type : String
  fields : List String
  operator : String
deriving DecidableEq, Repr

/-- Embedding of `createSearchKeywordsClause` (search.ts lines 132-147):
falsy params give no clause; otherwise the string (or the
space-joined array), trimmed, becomes one boosted bool-prefix
all-terms-required multi-match over name and description. -/
def createSearchKeywordsClause (params : QP) : List MultiMatch :=
  match params with
  | none => []
  | some (.inl "") => []
  | some v =>
    let query := jsTrim (match v with | .inl s => s | .inr l => " ".intercalate l)
    [⟨query, "bool_prefix", ["name^10", "description"], "and"⟩]

/-- The `{ bool: { should: [{ term: { path.id: id } }] } }` object built
per selected tag id. -/
structure TagClause where
  path : String
  id : Int
deriving DecidableEq, Repr

/-- Embedding of `createTagMatchClause` (search.ts lines 169-192): falsy
params give no clauses; values that are not integral numbers are
dropped; the survivors are parsed with `parseInt` (necessarily whole
numbers here, extracted as their integer numerator) and become one
term clause each. -/
def createTagMatchClause (path : String) (params : QP) : List TagClause :=
  match params with
  | none => []
  | some (.inl "") => []
  | some v =>
    let items := match v with | .inl s => [s] | .inr l => l
    let ids := (items.filter (fun item =>
        !(jsNumber item == JSNum.nan) && isIntegerJS (parseFloatJS item))).filterMap
      (fun item => match parseIntJS item with | .num q => some q.num | _ => none)
    ids.map (fun id => ⟨path, id⟩)

/-- The body of the engine query the `/api/search` handler submits
(search.ts lines 202-232), restricted to the fields it actually sets. -/
structure EsQuery where
  size : ℕ
  searchAfter : Option (List DecVal)
  sort : List SortClause
  must : List MultiMatch
  should : List TagClause
  filter : List FilterClause
deriving DecidableEq, Repr

/-- Embedding of the `/api/search` default handler as a function from
the request's query parameters to the engine query body. -/
def handleSearch (q : String → QP) : EsQuery :=
  { size := 10
    searchAfter := createSearchAfterClause (q "searchAfterKey")
    sort := handlerSortList (q "sort") (q "keywords") (q "reverse")
    must := createSearchKeywordsClause (q "keywords")
    should := createTagMatchClause "mechanics" (q "mechanics")
      ++ createTagMatchClause "categories" (q "themes")
    filter := handlerFilterGroup q }

/-- The decimal digit characters. -/
def digitChar (d : ℕ) : Char :=
  match d with
  | 0 => '0' | 1 => '1' | 2 => '2' | 3 => '3' | 4 => '4'
  | 5 => '5' | 6 => '6' | 7 => '7' | 8 => '8' | _ => '9'

/-- Big-endian decimal digit characters of a natural number, with
explicit fuel so that the definition reduces in the kernel. -/
def natCharsAux : ℕ → ℕ → List Char
  | 0, _ => []
  | fuel + 1, n =>
    if n < 10 then [digitChar n]
    else natCharsAux fuel (n / 10) ++ [digitChar (n % 10)]

/-- Decimal representation of a natural number (`(n).toString()` in
JavaScript for whole numbers below 1e21). -/
def natChars (n : ℕ) : List Char := natCharsAux (n + 1) n

/-- Decimal representation of an integer. -/
def intChars (n : ℤ) : List Char :=
  (if n < 0 then ['-'] else []) ++ natChars n.natAbs

/-- Value of a big-endian list of decimal digits. -/
def digitsNatVal (ds : List ℕ) : ℕ :=
  ds.foldl (fun a d => 10 * a + d) 0

/-- A JavaScript number (or string) appearing in an engine sort tuple,
classified by how `toString` prints it: a whole number in plain decimal;
a finite non-integer in plain decimal notation (sign, integer part,
fraction digits); a number printed in exponential notation (magnitude
below 1e-6 or at least 1e21), printed as `<m>e<sign><e>`; or a string
(the engine serializes infinite sort keys as the JSON string
`"Infinity"`, and string tie-breakers stay strings). -/
inductive SortVal where
  | intVal (n : ℤ)
  | floatVal (neg : Bool) (ip : ℕ) (frac : List ℕ)
  | expVal (m : ℤ) (e : ℤ)
  | strVal (s : String)
deriving DecidableEq, Repr

/-- JavaScript `toString` of a sort-tuple element, per its printing
class. -/
def svToString : SortVal → String
  | .intVal n => ⟨intChars n⟩
  | .floatVal neg ip frac =>
    ⟨(if neg then ['-'] else []) ++ natChars ip ++ '.' :: frac.map digitChar⟩
  | .expVal m e =>
    ⟨intChars m ++ 'e' ::
      (if e < 0 then '-' :: natChars e.natAbs else '+' :: natChars e.natAbs)⟩
  | .strVal s => s

/-- The typed value of a sort-tuple element, as the engine-bound decoded
form: numbers keep their exact rational value, strings stay strings. -/
def svVal : SortVal → DecVal
  | .intVal n => .jnum (.num (n : ℚ))
  | .floatVal neg ip frac =>
    .jnum (.num ((if neg then (-1 : ℚ) else 1) *
      ((ip : ℚ) + (digitsNatVal frac : ℚ) / 10 ^ frac.length)))
  | .expVal m e =>
    .jnum (.num (if 0 ≤ e then (m : ℚ) * 10 ^ e.toNat else (m : ℚ) / 10 ^ (-e).toNat))
  | .strVal s => .str s

/-- Embedding of the client-side cursor encoding in `src/lib/api.ts`
(the file whose current revision is `src/unnamed/part_004`):
`searchAfterKey.map((part) => part.toString())`. -/
def clientEncodeKey (vs : List SortVal) : List String := vs.map svToString

/-- Well-formedness of a non-final cursor element for the round-trip
theorem: a whole number, a plain-decimal float with a non-empty list of
genuine digits, or a string containing `Infinity` (the engine's
serialization of an infinite sort key).  Exponentially-printed numbers
are excluded — they are exactly the values the content-sniffing decoder
corrupts. -/
def CursorWf : SortVal → Bool
  | .intVal _ => true
  | .floatVal _ _ frac => !frac.isEmpty && frac.all (fun d => d < 10)
  | .expVal _ _ => false
  | .strVal s => jsIncludes s "Infinity"

/-- Modelled from the spec: the documents (or composite-aggregation
keys) strictly after an optional cursor under the engine's active total
order.  `none` means start from the beginning. -/
def restOf {α : Type} [LinearOrder α] (L : List α) : Option α → List α
  | none => L
  | some c => L.filter (fun d => decide (c < d))

/-- Modelled from the spec: one engine page of size 10 — the first ten
elements strictly after the cursor in sort order.  This is both the
`search_after`/`size: 10` page of `/api/search` (spec section 4.4,
the engine is "assumed correct and used as a service") and one
composite-aggregation bucket page of size 10 of the `/api/tags` handler
(spec section 4.5, the `after` key semantics). -/
def pageAfter {α : Type} [LinearOrder α] (L : List α) (a : Option α) : List α :=
  (restOf L a).take 10

/-- Embedding of the client's cursor update (`src/pages/index.tsx`
lines 109-113): the sort tuple of the page's last hit when the page is
non-empty, otherwise no cursor. -/
def clientNextCursor {α : Type} (hits : List α) : Option α :=
  if hits.length != 0 then hits.getLast? else none

/-- Embedding of the `loadTags` loop of the `/api/tags` handler
(`src/unnamed/part_012` lines 116-124) over the modelled engine:
accumulate the returned buckets and re-issue with the latest
`after_key` — which the engine defines as the key of the last returned
bucket — until an iteration returns zero buckets.  Structural fuel
stands in for the loop's termination. -/
def loadTagsLoop {α : Type} [LinearOrder α] (keys : List α) :
    ℕ → List α → Option α → List α
  | 0, acc, _ => acc
  | fuel + 1, acc, a =>
    let page := pageAfter keys a
    if page.isEmpty then acc
    else loadTagsLoop keys fuel (acc ++ page) page.getLast?

/-- The full enumeration: run the loop from no `after` key, with enough
fuel for every page (each non-final iteration returns at least one
bucket). -/
def loadTags {α : Type} [LinearOrder α] (keys : List α) : List α :=
  loadTagsLoop keys (keys.length + 1) [] none

/-- The `SearchFilters` record of `src/lib/api.ts`: the client-side
FilterSet. -/
structure SearchFilters where
  keywords : String
  sort : String
  reverse : Bool
  rank : String
  rating : String
  ratingCount : String
  weight : List String
  age : List String
  playtime : List String
  players : List String
  mechanics : List Int
  themes : List Int
deriving DecidableEq, Repr

/-- `DEFAULT_SEARCH_FILTERS` from `src/redux/filters.ts`. -/
def DEFAULT_SEARCH_FILTERS : SearchFilters :=
  { keywords := ""
    sort := "relevance"
    reverse := false
    rank := "any"
    rating := "any"
    ratingCount := "any"
    weight := []
    age := []
    playtime := []
    players := []
    mechanics := []
    themes := [] }

/-- The characters `query-string`'s strict URI encoding leaves literal:
ASCII letters, digits, and `-`, `_`, `.`, `~` (all below code point
128; the bound is part of the definition so decoding can treat literal
characters as single bytes). -/
def safeChar (c : Char) : Bool :=
  decide (c.toNat < 128) &&
    (c.isAlpha || c.isDigit || c == '-' || c == '_' || c == '.' || c == '~')

/-- The UTF-8 bytes of a character, in arithmetic form. -/
def utf8Bytes (c : Char) : List ℕ :=
  let n := c.toNat
  if n < 128 then [n]
  else if n < 2048 then [192 + n / 64, 128 + n % 64]
  else if n < 65536 then [224 + n / 4096, 128 + n / 64 % 64, 128 + n % 64]
  else [240 + n / 262144, 128 + n / 4096 % 64, 128 + n / 64 % 64, 128 + n % 64]

/-- Uppercase hexadecimal digit characters, as `encodeURIComponent`
produces. -/
def hexDigitChar (d : ℕ) : Char :=
  match d with
  | 0 => '0' | 1 => '1' | 2 => '2' | 3 => '3' | 4 => '4'
  | 5 => '5' | 6 => '6' | 7 => '7' | 8 => '8' | 9 => '9'
  | 10 => 'A' | 11 => 'B' | 12 => 'C' | 13 => 'D' | 14 => 'E' | _ => 'F'

/-- A percent-escaped byte: `%XX`. -/
def byteHex (b : ℕ) : List Char :=
  ['%', hexDigitChar (b / 16), hexDigitChar (b % 16)]

/-- Strict URI encoding of one character: literal if in the safe set,
otherwise the percent-escapes of its UTF-8 bytes. -/
def percentEncodeChar (c : Char) : List Char :=
  if safeChar c then [c] else ((utf8Bytes c).map byteHex).flatten

/-- Modelled from the spec: `query-string`'s strict URI encoding of a
component (spec section 4.1's URL-safe parameter representation). -/
def percentEncode (s : List Char) : List Char :=
  (s.map percentEncodeChar).flatten

/-- Hexadecimal digit value of a character. -/
def hexVal2 (c : Char) : Option ℕ :=
  if c.isDigit then some (c.toNat - 48)
  else if decide (65 ≤ c.toNat) && decide (c.toNat ≤ 70) then
    some (c.toNat - 55)
  else if decide (97 ≤ c.toNat) && decide (c.toNat ≤ 102) then
    some (c.toNat - 87)
  else none

/-- The byte stream of a percent-encoded component: `%XX` escapes
become their byte, other characters their code point (single bytes for
the ASCII characters the encoder emits). -/
def pctBytes : List Char → Option (List ℕ)
  | [] => some []
  | c :: rest =>
    if c = '%' then
      match rest with
      | h1 :: h2 :: rest2 =>
        match hexVal2 h1, hexVal2 h2, pctBytes rest2 with
        | some d1, some d2, some bs => some ((16 * d1 + d2) :: bs)
        | _, _, _ => none
      | _ => none
    else (pctBytes rest).map (fun bs => c.toNat :: bs)

/-- Whether a byte is a UTF-8 continuation byte. -/
def isCont (b : ℕ) : Bool := decide (128 ≤ b) && decide (b < 192)

/-- One right-to-left step of UTF-8 decoding: continuation bytes are
collected into `pending`; a lead byte must find exactly its
continuation count pending and then contributes one character. -/
def utf8Step (b : ℕ) (pending : List ℕ) (acc : Option (List Char)) :
    List ℕ × Option (List Char) :=
  if isCont b then (b :: pending, acc)
  else if b < 128 then
    match pending with
    | [] => ([], acc.map (fun cs => Char.ofNat b :: cs))
    | _ => ([], none)
  else if b < 224 then
    match pending with
    | [b1] => ([], acc.map (fun cs =>
        Char.ofNat ((b - 192) * 64 + (b1 - 128)) :: cs))
    | _ => ([], none)
  else if b < 240 then
    match pending with
    | [b1, b2] => ([], acc.map (fun cs =>
        Char.ofNat ((b - 224) * 4096 + (b1 - 128) * 64 + (b2 - 128)) :: cs))
    | _ => ([], none)
  else
    match pending with
    | [b1, b2, b3] => ([], acc.map (fun cs =>
        Char.ofNat ((b - 240) * 262144 + (b1 - 128) * 4096 +
          (b2 - 128) * 64 + (b3 - 128)) :: cs))
    | _ => ([], none)

/-- UTF-8 decoding of a byte stream: fold the step function from the
right; a dangling continuation byte at the end fails. -/
def utf8Decode (l : List ℕ) : Option (List Char) :=
  match l.foldr (fun b st => utf8Step b st.1 st.2) ([], some []) with
  | ([], acc) => acc
  | _ => none

/-- Modelled from the spec: URI-component decoding
(`decodeURIComponent` as used by `query-string`'s parse). -/
def percentDecode (s : List Char) : Option (List Char) :=
  (pctBytes s).bind utf8Decode

/-- `DelimitedArrayParam`'s underscore join. -/
def joinDelim (l : List String) : String :=
  ⟨List.intercalate ['_'] (l.map String.data)⟩

/-- `DelimitedNumericArrayParam`'s underscore join of decimal number
strings. -/
def joinNumDelim (l : List Int) : String :=
  ⟨List.intercalate ['_'] (l.map intChars)⟩

/-- Modelled from the spec: the encoded query — `encodeQueryParams`
over `QUERY_PARAM_TYPES` after `update`'s equality-against-default
pruning (`src/redux/filters.ts` lines 69-82): every field equal to its
default (the `equals` helper treats arrays as equal only when both are
empty) encodes to `undefined`; the others use StringParam (identity),
BooleanParam (`"1"`), or the delimited array codecs.  The keys are
listed alphabetically, as `query-string`'s `stringify` sorts them. -/
def encodeFilters (f : SearchFilters) : List (String × Option String) :=
  [("age", if f.age.isEmpty then none else some (joinDelim f.age)),
   ("keywords", if f.keywords == "" then none else some f.keywords),
   ("mechanics", if f.mechanics.isEmpty then none
     else some (joinNumDelim f.mechanics)),
   ("players", if f.players.isEmpty then none else some (joinDelim f.players)),
   ("playtime", if f.playtime.isEmpty then none
     else some (joinDelim f.playtime)),
   ("rank", if f.rank == "any" then none else some f.rank),
   ("rating", if f.rating == "any" then none else some f.rating),
   ("ratingCount", if f.ratingCount == "any" then none
     else some f.ratingCount),
   ("reverse", if f.reverse then some "1" else none),
   ("sort", if f.sort == "relevance" then none else some f.sort),
   ("themes", if f.themes.isEmpty then none else some (joinNumDelim f.themes)),
   ("weight", if f.weight.isEmpty then none else some (joinDelim f.weight))]

/-- Modelled from the spec: `query-string`'s `stringify` — skip
`undefined` values, URI-encode keys and values, join `k=v` pairs with
ampersands. -/
def stringifyPairs (l : List (String × Option String)) : List Char :=
  List.intercalate ['&'] (l.filterMap (fun kv => kv.2.map (fun v =>
    percentEncode kv.1.data ++ '=' :: percentEncode v.data)))

/-- The full parameter-string encoder: `update`'s pruning followed by
`stringify`. -/
def encodeFilterSet (f : SearchFilters) : String :=
  ⟨stringifyPairs (encodeFilters f)⟩

/-- Split a list at the first occurrence of a delimiter; `none` when
the delimiter does not occur (a bare key without `=`). -/
def splitOnFirst (d : Char) : List Char → List Char × Option (List Char)
  | [] => ([], none)
  | c :: rest =>
    if c = d then ([], some rest)
    else
      match splitOnFirst d rest with
      | (k, v) => (c :: k, v)

/-- Modelled from the spec: `query-string`'s `parse` — split the
string on `&`, split each part at the first `=`, URI-decode keys and
values; a bare key maps to null (`none`). -/
def parsePairs (s : List Char) : List (String × Option String) :=
  if s.isEmpty then []
  else
    (s.splitOn '&').filterMap (fun part =>
      match splitOnFirst '=' part with
      | (k, v) =>
        match percentDecode k with
        | none => none
        | some kd =>
          some (⟨kd⟩, match v with
            | none => none
            | some vv => (percentDecode vv).map (fun cs => (⟨cs⟩ : String))))

/-- The raw value of a parameter: `none` when the key is missing
(`undefined`), otherwise the first entry's value (`none` inside for a
null value). -/
def lookupParam (entries : List (String × Option String)) (k : String) :
    Option (Option String) :=
  match entries.find? (fun e => e.1 == k) with
  | none => none
  | some e => some e.2

/-- `StringParam.decode`: a present string decodes to itself, absent
and null decode away. -/
def decodeStringParam : Option (Option String) → Option String
  | some (some s) => some s
  | _ => none

/-- `BooleanParam.decode`: `"1"` and `"0"`. -/
def decodeBooleanParam : Option (Option String) → Option Bool
  | some (some s) => if s = "1" then some true else
      if s = "0" then some false else none
  | _ => none

/-- `DelimitedArrayParam.decode`: split a present string on
underscores. -/
def decodeDelimitedArray : Option (Option String) → Option (List String)
  | some (some s) => some ((s.data.splitOn '_').map (fun cs => (⟨cs⟩ : String)))
  | _ => none

/-- Modelled from the spec: one entry of the numeric-array codec.  The
FilterSet's tag ids are integers (spec section 3), so the model parses a
fully-consumed optionally-signed decimal integer; anything else (never
produced by the encoder) collapses to 0. -/
def decodeIntEntry (cs : List Char) : Int :=
  match splitSign cs with
  | (neg, cs2) =>
    if cs2.isEmpty then 0
    else if cs2.all Char.isDigit then
      (if neg then -1 else 1) * (digitsVal cs2 : Int)
    else 0

/-- `DelimitedNumericArrayParam.decode`. -/
def decodeDelimitedNumericArray : Option (Option String) → Option (List Int)
  | some (some s) => some ((s.data.splitOn '_').map decodeIntEntry)
  | _ => none

/-- The decoded values of `decodeQueryParams` over `QUERY_PARAM_TYPES`:
one optional typed value per FilterSet field (`none` covering both
`undefined` and `null`, which the `diff` merge treats identically). -/
structure DecodedFilters where
  keywords : Option String
  sort : Option String
  reverse : Option Bool
  rank : Option String
  rating : Option String
  ratingCount : Option String
  weight : Option (List String)
  age : Option (List String)
  playtime : Option (List String)
  players : Option (List String)
  mechanics : Option (List Int)
  themes : Option (List Int)
deriving DecidableEq, Repr

/-- Embedding of `decodeQueryParamsStr` (`src/redux/filters.ts` lines
89-92): parse the parameter string and decode each configured key. -/
def decodeQueryParamsStr (s : String) : DecodedFilters :=
  let entries := parsePairs s.data
  { keywords := decodeStringParam (lookupParam entries "keywords")
    sort := decodeStringParam (lookupParam entries "sort")
    reverse := decodeBooleanParam (lookupParam entries "reverse")
    rank := decodeStringParam (lookupParam entries "rank")
    rating := decodeStringParam (lookupParam entries "rating")
    ratingCount := decodeStringParam (lookupParam entries "ratingCount")
    weight := decodeDelimitedArray (lookupParam entries "weight")
    age := decodeDelimitedArray (lookupParam entries "age")
    playtime := decodeDelimitedArray (lookupParam entries "playtime")
    players := decodeDelimitedArray (lookupParam entries "players")
    mechanics := decodeDelimitedNumericArray (lookupParam entries "mechanics")
    themes := decodeDelimitedNumericArray (lookupParam entries "themes") }

/-- Embedding of the `diff` merge (`src/redux/filters.ts` lines
94-114) of decoded values into a state: null/undefined values are
skipped, a value `equals` the state's (strict equality; arrays equal
only when both empty) leaves the state, anything else overrides. -/
def mergeDecoded (state : SearchFilters) (d : DecodedFilters) : SearchFilters :=
  { keywords := match d.keywords with
      | some v => if state.keywords == v then state.keywords else v
      | none => state.keywords
    sort := match d.sort with
      | some v => if state.sort == v then state.sort else v
      | none => state.sort
    reverse := match d.reverse with
      | some v => if state.reverse == v then state.reverse else v
      | none => state.reverse
    rank := match d.rank with
      | some v => if state.rank == v then state.rank else v
      | none => state.rank
    rating := match d.rating with
      | some v => if state.rating == v then state.rating else v
      | none => state.rating
    ratingCount := match d.ratingCount with
      | some v => if state.ratingCount == v then state.ratingCount else v
      | none => state.ratingCount
    weight := match d.weight with
      | some v => if state.weight.isEmpty && v.isEmpty then state.weight else v
      | none => state.weight
    age := match d.age with
      | some v => if state.age.isEmpty && v.isEmpty then state.age else v
      | none => state.age
    playtime := match d.playtime with
      | some v => if state.playtime.isEmpty && v.isEmpty then state.playtime
          else v
      | none => state.playtime
    players := match d.players with
      | some v => if state.players.isEmpty && v.isEmpty then state.players
          else v
      | none => state.players
    mechanics := match d.mechanics with
      | some v => if state.mechanics.isEmpty && v.isEmpty then state.mechanics
          else v
      | none => state.mechanics
    themes := match d.themes with
      | some v => if state.themes.isEmpty && v.isEmpty then state.themes else v
      | none => state.themes }

/-- The full decoder: `loadFromQueryParams` at the start of a session —
decode the parameter string and merge it into the default FilterSet. -/
def decodeFilterSet (s : String) : SearchFilters :=
  mergeDecoded DEFAULT_SEARCH_FILTERS (decodeQueryParamsStr s)

/-- The present (non-`undefined`) entries of an encoded query, as the
key/value pairs the parameter string carries. -/
def presentPair (kv : String × Option String) : Option (String × Option String) :=
  kv.2.map (fun v => (kv.1, some v))

/-- A FilterSet reachable through the UI: the single-select fields hold
one of their menu values, the multi-select bucket families hold subsets
of their fixed bucket tags; keywords is an arbitrary typed string and
tag ids are arbitrary integers. -/
def ReachableF (f : SearchFilters) : Prop :=
  f.sort ∈ ["relevance", "rank", "rating", "weight"] ∧
  f.rank ∈ ["any", "t100", "t500", "t2500"] ∧
  f.rating ∈ ["any", "2p", "5p", "8p"] ∧
  f.ratingCount ∈ ["any", "100p", "1kp", "10kp"] ∧
  (∀ v ∈ f.weight, v ∈ ["1t2", "2t3", "3t4", "4t5"]) ∧
  (∀ v ∈ f.age, v ∈ ["0t4", "5t10", "11t17", "18t20", "21p"]) ∧
  (∀ v ∈ f.playtime, v ∈ ["0t30", "30t60", "60t120", "120p"]) ∧
  (∀ v ∈ f.players, v ∈ ["1", "2", "3", "4", "5p"])

/-- One hit of a search response as the client consumes it: the source
document and its sort tuple. -/
structure ResHit (G K : Type) where
  source : G
  sort : K
deriving DecidableEq, Repr

/-- A search response body: hits plus the total count. -/
structure SearchResults (G K : Type) where
  hits : List (ResHit G K)
  total : ℕ
deriving DecidableEq, Repr

/-- The client page state touched by `loadGames` completions:
accumulated games, the active cursor, and the more-results flag. -/
structure ClientState (G K : Type) where
  games : List G
  searchAfterKey : Option K
  moreResults : Bool
deriving DecidableEq, Repr

/-- Embedding of the completion of `loadGames` (`src/pages/index.tsx`
lines 107-128): unconditionally replaces the cursor with the last hit's
sort tuple (none when the page is empty), replaces or extends the game
list depending on whether this was a load-more call (`searchAfter`
carries the games captured when the request started), and recomputes
`moreResults`.  The current state is never consulted: there is no
generation token and no staleness check. -/
def applyResponse {G K : Type} (st : ClientState G K)
    (searchAfter : Option (List G × K)) (results : SearchResults G K) :
    ClientState G K :=
  { games :=
      match searchAfter with
      | some sa => sa.1 ++ results.hits.map (fun h => h.source)
      | none => results.hits.map (fun h => h.source)
    searchAfterKey :=
      match results.hits.getLast? with
      | some h => some h.sort
      | none => none
    moreResults :=
      results.total !=
        results.hits.length +
          (match searchAfter with | some sa => sa.1.length | none => 0) }

/-- The request of the C8 scenario: every filter at its default (hence
absent from the URL) and `keywords=catan`. -/
def reqC8 : String → QP := fun k =>
  if k = "keywords" then some (.inl "catan") else none

/-- Concrete request used to exercise the handler's filter group: a
recognized rank value, a recognized pair of players values, and an age
value naming no known bucket. -/
def reqC4 : String → QP := fun k =>
  if k = "players" then some (.inr ["2", "4"])
  else if k = "age" then some (.inr ["bogus"])
  else if k = "rank" then some (.inl "t100")
  else none

/-- The `age` entry of the encoded query. -/
def entAge (f : SearchFilters) : String × Option String :=
  ("age", if f.age.isEmpty then none else some (joinDelim f.age))

/-- The `keywords` entry of the encoded query. -/
def entKeywords (f : SearchFilters) : String × Option String :=
  ("keywords", if f.keywords == "" then none else some f.keywords)

/-- The `mechanics` entry of the encoded query. -/
def entMechanics (f : SearchFilters) : String × Option String :=
  ("mechanics", if f.mechanics.isEmpty then none
    else some (joinNumDelim f.mechanics))

/-- The `players` entry of the encoded query. -/
def entPlayers (f : SearchFilters) : String × Option String :=
  ("players", if f.players.isEmpty then none else some (joinDelim f.players))

/-- The `playtime` entry of the encoded query. -/
def entPlaytime (f : SearchFilters) : String × Option String :=
  ("playtime", if f.playtime.isEmpty then none else some (joinDelim f.playtime))

/-- The `rank` entry of the encoded query. -/
def entRank (f : SearchFilters) : String × Option String :=
  ("rank", if f.rank == "any" then none else some f.rank)

/-- The `rating` entry of the encoded query. -/
def entRating (f : SearchFilters) : String × Option String :=
  ("rating", if f.rating == "any" then none else some f.rating)

/-- The `ratingCount` entry of the encoded query. -/
def entRatingCount (f : SearchFilters) : String × Option String :=
  ("ratingCount", if f.ratingCount == "any" then none else some f.ratingCount)

/-- The `reverse` entry of the encoded query. -/
def entReverse (f : SearchFilters) : String × Option String :=
  ("reverse", if f.reverse then some "1" else none)

/-- The `sort` entry of the encoded query. -/
def entSort (f : SearchFilters) : String × Option String :=
  ("sort", if f.sort == "relevance" then none else some f.sort)

/-- The `themes` entry of the encoded query. -/
def entThemes (f : SearchFilters) : String × Option String :=
  ("themes", if f.themes.isEmpty then none else some (joinNumDelim f.themes))

/-- The `weight` entry of the encoded query. -/
def entWeight (f : SearchFilters) : String × Option String :=
  ("weight", if f.weight.isEmpty then none else some (joinDelim f.weight))

/-- A concrete reachable FilterSet exercising every codec: a non-ASCII
keyword string with a reserved character, a non-default sort, the
reverse flag, multi-select buckets and signed tag ids. -/
def sampleF : SearchFilters :=
  { keywords := "catan & más"
    sort := "rank"
    reverse := true
    rank := "any"
    rating := "5p"
    ratingCount := "any"
    weight := ["1t2", "2t3"]
    age := []
    playtime := ["0t30"]
    players := ["2"]
    mechanics := [101, -5]
    themes := [] }

end BGS

namespace BGS

/-- Filtering a list twice with the same predicate equals filtering once. -/
theorem filter_idem {α : Type} (p : α → Bool) (l : List α) :
    (l.filter p).filter p = l.filter p := by
  induction l with
  | nil => rfl
  | cons a t ih =>
    by_cases h : p a = true <;> simp [List.filter_cons, h, ih]

/-- Digit characters are digits and decode to their value. -/
theorem digitChar_spec : ∀ d : ℕ, d < 10 →
    (digitChar d).isDigit = true ∧ digitVal (digitChar d) = d := by
  decide

/-- Appending one digit multiplies the accumulated value by ten. -/
theorem digitsVal_snoc (l : List Char) (c : Char) :
    digitsVal (l ++ [c]) = 10 * digitsVal l + digitVal c := by
  simp [digitsVal, List.foldl_append]

/-- With enough fuel, `natCharsAux` produces a non-empty all-digit list
whose decimal value is the input. -/
theorem natCharsAux_spec : ∀ fuel n : ℕ, n < fuel →
    natCharsAux fuel n ≠ [] ∧ (∀ c ∈ natCharsAux fuel n, c.isDigit = true) ∧
      digitsVal (natCharsAux fuel n) = n := by
  intro fuel
  induction fuel with
  | zero => intro n h; omega
  | succ fuel ih =>
    intro n h
    by_cases h10 : n < 10
    · refine ⟨by simp [natCharsAux, h10], ?_, ?_⟩
      · intro c hc
        simp [natCharsAux, h10] at hc
        exact hc ▸ (digitChar_spec n h10).1
      · simp [natCharsAux, h10, digitsVal]
        exact (digitChar_spec n h10).2
    · have hdiv : n / 10 < fuel :=
        lt_of_lt_of_le (Nat.div_lt_self (by omega) (by omega)) (by omega)
      obtain ⟨h1, h2, h3⟩ := ih (n / 10) hdiv
      have heq : natCharsAux (fuel + 1) n =
          natCharsAux fuel (n / 10) ++ [digitChar (n % 10)] := by
        simp [natCharsAux, h10]
      refine ⟨by simp [heq], ?_, ?_⟩
      · intro c hc
        rw [heq] at hc
        rcases List.mem_append.mp hc with hc | hc
        · exact h2 c hc
        · rw [List.mem_singleton.mp hc]
          exact (digitChar_spec (n % 10) (by omega)).1
      · rw [heq, digitsVal_snoc, h3, (digitChar_spec (n % 10) (by omega)).2]
        omega

/-- `natChars` is a non-empty all-digit decimal representation. -/
theorem natChars_spec (n : ℕ) :
    natChars n ≠ [] ∧ (∀ c ∈ natChars n, c.isDigit = true) ∧
      digitsVal (natChars n) = n :=
  natCharsAux_spec (n + 1) n (by omega)

/-- A digit character differs from any non-digit character. -/
theorem digit_ne {c x : Char} (hx : x.isDigit = false) (h : c.isDigit = true) :
    c ≠ x := by
  intro e
  rw [e, hx] at h
  exact Bool.false_ne_true h

/-- A digit character `==`-compares false to any non-digit character. -/
theorem digit_beq_false {c x : Char} (hx : x.isDigit = false)
    (h : c.isDigit = true) : (c == x) = false := by
  cases hb : c == x
  · rfl
  · exact absurd (eq_of_beq hb ▸ h) (by simp [hx])

/-- Digit characters are not JavaScript whitespace. -/
theorem jsIsSpace_digit {c : Char} (h : c.isDigit = true) :
    jsIsSpace c = false := by
  simp only [jsIsSpace]
  rw [digit_beq_false (by decide) h, digit_beq_false (by decide) h,
    digit_beq_false (by decide) h, digit_beq_false (by decide) h]
  rfl

/-- `takeWhile` keeps a list all of whose elements satisfy the
predicate. -/
theorem takeWhile_all {α : Type} {p : α → Bool} :
    ∀ l : List α, (∀ c ∈ l, p c = true) → l.takeWhile p = l := by
  intro l
  induction l with
  | nil => intro _; rfl
  | cons a t ih =>
    intro h
    simp [List.takeWhile_cons, h a (by simp), ih fun c hc => h c (by simp [hc])]

/-- `dropWhile` empties a list all of whose elements satisfy the
predicate. -/
theorem dropWhile_all {α : Type} {p : α → Bool} :
    ∀ l : List α, (∀ c ∈ l, p c = true) → l.dropWhile p = [] := by
  intro l
  induction l with
  | nil => intro _; rfl
  | cons a t ih =>
    intro h
    simp [List.dropWhile_cons, h a (by simp), ih fun c hc => h c (by simp [hc])]

/-- `takeWhile` over satisfying elements followed by a failing element
takes exactly the satisfying prefix. -/
theorem takeWhile_append_stop {α : Type} {p : α → Bool} (l : List α)
    (h : ∀ c ∈ l, p c = true) (x : α) (hx : p x = false) (r : List α) :
    (l ++ x :: r).takeWhile p = l := by
  induction l with
  | nil => simp [List.takeWhile_cons, hx]
  | cons a t ih =>
    simp [List.takeWhile_cons, h a (by simp),
      ih fun c hc => h c (by simp [hc])]

/-- `dropWhile` over satisfying elements followed by a failing element
drops exactly the satisfying prefix. -/
theorem dropWhile_append_stop {α : Type} {p : α → Bool} (l : List α)
    (h : ∀ c ∈ l, p c = true) (x : α) (hx : p x = false) (r : List α) :
    (l ++ x :: r).dropWhile p = x :: r := by
  induction l with
  | nil => simp [List.dropWhile_cons, hx]
  | cons a t ih =>
    simp [List.dropWhile_cons, h a (by simp),
      ih fun c hc => h c (by simp [hc])]

/-- `"Infinity"` is not a prefix of a list that does not start with
`I`. -/
theorem infinity_notPre {t : List Char} {a : Char} (ha : a ≠ 'I') :
    "Infinity".data.isPrefixOf (a :: t) = false := by
  have he : "Infinity".data = 'I' :: "nfinity".data := rfl
  rw [he]
  show (('I' == a) && "nfinity".data.isPrefixOf t) = false
  rw [beq_eq_false_iff_ne.mpr fun h => ha h.symm]
  rfl

/-- A string whose characters do not include `I` does not contain the
substring `Infinity`. -/
theorem jsIncludes_infinity_false {l : List Char} (h : 'I' ∉ l) :
    jsIncludes ⟨l⟩ "Infinity" = false := by
  show l.tails.any (fun t => "Infinity".data.isPrefixOf t) = false
  induction l with
  | nil => decide
  | cons a t ih =>
    rw [List.tails_cons]
    simp only [List.any_cons]
    rw [infinity_notPre
        (by intro e; exact h (by rw [← e]; exact List.mem_cons_self a t)),
      ih fun hm => h (List.mem_cons_of_mem a hm)]
    rfl

/-- A list not containing a character does not `contains` it. -/
theorem contains_false {l : List Char} {c : Char} (h : c ∉ l) :
    l.contains c = false := by
  induction l with
  | nil => rfl
  | cons a t ih =>
    show ((c == a) || t.contains c) = false
    rw [beq_eq_false_iff_ne.mpr
        fun e => h (by rw [e]; exact List.mem_cons_self a t),
      ih fun hm => h (List.mem_cons_of_mem a hm)]
    rfl

/-- `parseInt` on an optional sign followed by digits returns the signed
decimal value. -/
theorem parseIntJS_digits (neg : Bool) (a : Char) (t : List Char)
    (hdig : ∀ c ∈ a :: t, c.isDigit = true) :
    parseIntJS ⟨(if neg then ['-'] else []) ++ a :: t⟩ =
      .num ((if neg then (-1 : ℚ) else 1) * (digitsVal (a :: t) : ℚ)) := by
  have ha := hdig a (List.mem_cons_self a t)
  have hsp : jsIsSpace a = false := jsIsSpace_digit ha
  have htw : (a :: t).takeWhile Char.isDigit = a :: t := takeWhile_all _ hdig
  have hsplit : splitSign (a :: t) = (false, a :: t) := by
    simp [splitSign, digit_ne (show ('-').isDigit = false by decide) ha,
      digit_ne (show ('+').isDigit = false by decide) ha]
  cases neg
  · show parseIntJS ⟨a :: t⟩ = .num (1 * (digitsVal (a :: t) : ℚ))
    simp only [parseIntJS, show (⟨a :: t⟩ : String).data = a :: t from rfl,
      List.dropWhile_cons, hsp, Bool.false_eq_true, if_false, hsplit, htw,
      List.isEmpty_cons]
  · show parseIntJS ⟨'-' :: a :: t⟩ = .num (-1 * (digitsVal (a :: t) : ℚ))
    have hsplit2 : splitSign ('-' :: a :: t) = (true, a :: t) := by
      simp [splitSign]
    simp only [parseIntJS,
      show (⟨'-' :: a :: t⟩ : String).data = '-' :: a :: t from rfl,
      List.dropWhile_cons, show jsIsSpace '-' = false from rfl,
      Bool.false_eq_true, if_false, hsplit2, htw, List.isEmpty_cons]
    simp

/-- `parseFloat` on an optional sign, a non-empty run of digits, a dot
and a run of digits returns the exact signed decimal value. -/
theorem parseFloatJS_plain (neg : Bool) (ip fr : List Char)
    (hipne : ip ≠ []) (hip : ∀ c ∈ ip, c.isDigit = true)
    (hfr : ∀ c ∈ fr, c.isDigit = true) :
    parseFloatJS ⟨(if neg then ['-'] else []) ++ ip ++ '.' :: fr⟩ =
      .num ((if neg then (-1 : ℚ) else 1) *
        ((digitsVal ip : ℚ) + (digitsVal fr : ℚ) / 10 ^ fr.length)) := by
  obtain ⟨a, t, rfl⟩ : ∃ a t, ip = a :: t := by
    cases ip with
    | nil => exact absurd rfl hipne
    | cons a t => exact ⟨a, t, rfl⟩
  have ha := hip a (List.mem_cons_self a t)
  have hsp : jsIsSpace a = false := jsIsSpace_digit ha
  have hpre : "Infinity".data.isPrefixOf (a :: (t ++ '.' :: fr)) = false :=
    infinity_notPre (digit_ne (show ('I').isDigit = false by decide) ha)
  have htw : (a :: (t ++ '.' :: fr)).takeWhile Char.isDigit = a :: t := by
    rw [show a :: (t ++ '.' :: fr) = (a :: t) ++ '.' :: fr from rfl]
    exact takeWhile_append_stop _ hip '.' (by decide) fr
  have hdw : (a :: (t ++ '.' :: fr)).dropWhile Char.isDigit = '.' :: fr := by
    rw [show a :: (t ++ '.' :: fr) = (a :: t) ++ '.' :: fr from rfl]
    exact dropWhile_append_stop _ hip '.' (by decide) fr
  have hfrt : fr.takeWhile Char.isDigit = fr := takeWhile_all _ hfr
  have hfrd : fr.dropWhile Char.isDigit = [] := dropWhile_all _ hfr
  have hfrac : parseFracPart ('.' :: fr) = (fr, []) := by
    simp [parseFracPart, hfrt, hfrd]
  cases neg
  · have hsplit : splitSign (a :: (t ++ '.' :: fr)) =
        (false, a :: (t ++ '.' :: fr)) := by
      simp [splitSign, digit_ne (show ('-').isDigit = false by decide) ha,
        digit_ne (show ('+').isDigit = false by decide) ha]
    show parseFloatJS ⟨(a :: t) ++ '.' :: fr⟩ = _
    simp only [parseFloatJS, List.cons_append,
      List.dropWhile_cons, hsp, Bool.false_eq_true, if_false, hsplit, hpre,
      htw, hdw, hfrac, List.isEmpty_cons, Bool.false_and,
      show parseExpPart [] = 0 from rfl]
    simp
  · have hsplit : splitSign ('-' :: a :: (t ++ '.' :: fr)) =
        (true, a :: (t ++ '.' :: fr)) := by
      simp [splitSign]
    show parseFloatJS ⟨'-' :: a :: (t ++ '.' :: fr)⟩ = _
    simp only [parseFloatJS, List.cons_append,
      List.dropWhile_cons, show jsIsSpace '-' = false from rfl,
      Bool.false_eq_true, if_false, hsplit, hpre, htw, hdw, hfrac,
      List.isEmpty_cons, Bool.false_and,
      show parseExpPart [] = 0 from rfl]
    simp

/-- Decoding the digit characters of bounded digits recovers the digit
fold. -/
theorem digitsVal_map_digitChar (ds : List ℕ) (h : ∀ d ∈ ds, d < 10) :
    digitsVal (ds.map digitChar) = digitsNatVal ds := by
  have aux : ∀ (l : List ℕ), (∀ d ∈ l, d < 10) → ∀ acc : ℕ,
      (l.map digitChar).foldl (fun a c => 10 * a + digitVal c) acc =
        l.foldl (fun a d => 10 * a + d) acc := by
    intro l
    induction l with
    | nil => intro _ _; rfl
    | cons d t ih =>
      intro hl acc
      simp only [List.map_cons, List.foldl_cons]
      rw [(digitChar_spec d (hl d (by simp))).2,
        ih (fun x hx => hl x (by simp [hx])) _]
  exact aux ds h 0

/-- Index-aware map over a list with a distinguished final element:
all earlier positions use the first function, the last uses the second. -/
theorem mapIdxFrom_snoc {α β : Type} (F G : α → β) (es : List α) (e : α) :
    ∀ k n : ℕ, k + es.length = n →
    mapIdxFrom (fun i item => if i != n then F item else G item) k (es ++ [e]) =
      es.map F ++ [G e] := by
  induction es with
  | nil =>
    intro k n hk
    simp only [List.length_nil, Nat.add_zero] at hk
    subst hk
    have he : mapIdxFrom (fun i item => if i != k then F item else G item) k
        ([] ++ [e]) = [if (k != k) = true then F e else G e] := rfl
    rw [he, bne_self_eq_false]
    simp
  | cons a t ih =>
    intro k n hk
    have hkn : (k != n) = true := by
      have hne : k ≠ n := by simp only [List.length_cons] at hk; omega
      exact bne_iff_ne.mpr hne
    have he : mapIdxFrom (fun i item => if i != n then F item else G item) k
        ((a :: t) ++ [e]) =
          (if (k != n) = true then F a else G a) ::
            mapIdxFrom (fun i item => if i != n then F item else G item)
              (k + 1) (t ++ [e]) := rfl
    rw [he, hkn, if_pos rfl,
      ih (k + 1) n (by simp only [List.length_cons] at hk; omega)]
    rfl

/-- A list containing a character `contains` it. -/
theorem contains_true {l : List Char} {c : Char} (h : c ∈ l) :
    l.contains c = true := by
  induction l with
  | nil => cases h
  | cons a t ih =>
    show ((c == a) || t.contains c) = true
    rcases List.mem_cons.mp h with rfl | hm
    · simp
    · rw [ih hm]
      simp

/-- Decoding an encoded well-formed cursor element recovers its typed
value. -/
theorem decodeCursorTok_svToString {v : SortVal} (h : CursorWf v = true) :
    decodeCursorTok (svToString v) = svVal v := by
  cases v with
  | intVal n =>
    obtain ⟨hne, hdig, hval⟩ := natChars_spec n.natAbs
    obtain ⟨a, t, he⟩ : ∃ a t, natChars n.natAbs = a :: t := by
      cases hc : natChars n.natAbs with
      | nil => exact absurd hc hne
      | cons a t => exact ⟨a, t, rfl⟩
    have hdig2 : ∀ c ∈ a :: t, c.isDigit = true := fun c hc =>
      hdig c (by rw [he]; exact hc)
    have hval2 : digitsVal (a :: t) = n.natAbs := by rw [← he]; exact hval
    by_cases hn : n < 0
    · have hsv : svToString (.intVal n) = ⟨'-' :: a :: t⟩ := by
        simp [svToString, intChars, he, hn]
      have hnoI : 'I' ∉ '-' :: a :: t := by
        intro hm
        rcases List.mem_cons.mp hm with hm | hm
        · exact absurd hm (by decide)
        · exact absurd (hdig2 'I' hm) (by decide)
      have hnoDot : '.' ∉ '-' :: a :: t := by
        intro hm
        rcases List.mem_cons.mp hm with hm | hm
        · exact absurd hm (by decide)
        · exact absurd (hdig2 '.' hm) (by decide)
      rw [hsv]
      unfold decodeCursorTok
      rw [jsIncludes_infinity_false hnoI,
        show (⟨'-' :: a :: t⟩ : String).data = '-' :: a :: t from rfl,
        contains_false hnoDot]
      have hp := parseIntJS_digits true a t hdig2
      simp only [List.singleton_append, if_true] at hp
      simp only [Bool.false_eq_true, if_false]
      rw [hp, hval2]
      have hz : (n.natAbs : ℤ) = -n := by omega
      have hcast : ((n.natAbs : ℤ) : ℚ) = (n.natAbs : ℚ) := Int.cast_natCast _
      have hq : (n.natAbs : ℚ) = -(n : ℚ) := by
        rw [← hcast, hz]
        exact Int.cast_neg n
      simp [svVal, hq]
    · have hsv : svToString (.intVal n) = ⟨a :: t⟩ := by
        simp [svToString, intChars, he, hn]
      have hnoI : 'I' ∉ a :: t := fun hm => absurd (hdig2 'I' hm) (by decide)
      have hnoDot : '.' ∉ a :: t := fun hm => absurd (hdig2 '.' hm) (by decide)
      rw [hsv]
      unfold decodeCursorTok
      rw [jsIncludes_infinity_false hnoI,
        show (⟨a :: t⟩ : String).data = a :: t from rfl, contains_false hnoDot]
      have hp := parseIntJS_digits false a t hdig2
      simp only [List.nil_append, Bool.false_eq_true, if_false] at hp
      simp only [Bool.false_eq_true, if_false]
      rw [hp, hval2]
      have hz : (n.natAbs : ℤ) = n := by omega
      have hcast : ((n.natAbs : ℤ) : ℚ) = (n.natAbs : ℚ) := Int.cast_natCast _
      have hq : (n.natAbs : ℚ) = (n : ℚ) := by rw [← hcast, hz]
      simp [svVal, hq]
  | floatVal neg ip frac =>
    simp only [CursorWf, Bool.and_eq_true, Bool.not_eq_true', List.isEmpty_eq_false,
      List.all_eq_true, decide_eq_true_eq] at h
    obtain ⟨hfne, hflt⟩ := h
    obtain ⟨hne, hdig, hval⟩ := natChars_spec ip
    have hfr : ∀ c ∈ frac.map digitChar, c.isDigit = true := by
      intro c hc
      obtain ⟨d, hd, rfl⟩ := List.mem_map.mp hc
      exact (digitChar_spec d (hflt d hd)).1
    have hl : svToString (.floatVal neg ip frac) =
        ⟨(if neg then ['-'] else []) ++ natChars ip ++ '.' :: frac.map digitChar⟩ :=
      rfl
    have hnoI :
        'I' ∉ (if neg then ['-'] else []) ++ natChars ip ++ '.' :: frac.map digitChar := by
      intro hm
      rcases List.mem_append.mp hm with hm | hm
      · rcases List.mem_append.mp hm with hm | hm
        · cases neg
          · simp at hm
          · simp only [List.mem_singleton, if_true] at hm
            exact absurd hm (by decide)
        · exact absurd (hdig 'I' hm) (by decide)
      · rcases List.mem_cons.mp hm with hm | hm
        · exact absurd hm (by decide)
        · exact absurd (hfr 'I' hm) (by decide)
    have hasDot :
        '.' ∈ (if neg then ['-'] else []) ++ natChars ip ++ '.' :: frac.map digitChar :=
      List.mem_append.mpr (Or.inr (List.mem_cons_self _ _))
    rw [hl]
    unfold decodeCursorTok
    rw [jsIncludes_infinity_false hnoI,
      show (⟨(if neg then ['-'] else []) ++ natChars ip ++ '.' :: frac.map digitChar⟩ :
        String).data = (if neg then ['-'] else []) ++ natChars ip ++ '.' :: frac.map digitChar
        from rfl,
      contains_true hasDot]
    simp only [Bool.false_eq_true, if_false, if_true]
    rw [show ((if neg then ['-'] else []) ++ natChars ip ++ '.' :: frac.map digitChar) =
      ((if neg then ['-'] else []) ++ natChars ip ++ '.' :: frac.map digitChar) from rfl]
    rw [parseFloatJS_plain neg (natChars ip) (frac.map digitChar) hne hdig hfr]
    rw [hval, digitsVal_map_digitChar frac hflt, List.length_map]
    rfl
  | expVal m e => simp [CursorWf] at h
  | strVal s =>
    simp only [CursorWf] at h
    simp [decodeCursorTok, svToString, svVal, h]

/-- In a strictly increasing list, every element is at most the last. -/
theorem le_getLast?_pairwise {α : Type} [LinearOrder α] :
    ∀ xs : List α, xs.Pairwise (· < ·) →
      ∀ x ∈ xs, ∀ l, xs.getLast? = some l → x ≤ l := by
  intro xs
  induction xs with
  | nil => intro _ x hx; cases hx
  | cons a t ih =>
    intro hp x hx l hl
    cases t with
    | nil =>
      obtain rfl := List.mem_singleton.mp hx
      obtain rfl : x = l := by simpa using hl
      exact le_refl x
    | cons b t2 =>
      rw [List.getLast?_cons_cons] at hl
      rcases List.mem_cons.mp hx with rfl | hx2
      · have hlm : l ∈ b :: t2 := List.mem_of_mem_getLast? hl
        exact le_of_lt (List.rel_of_pairwise_cons hp hlm)
      · exact ih hp.of_cons x hx2 l hl

/-- In a strictly increasing list, the head is at most every element. -/
theorem head?_le_pairwise {α : Type} [LinearOrder α] (xs : List α)
    (hp : xs.Pairwise (· < ·)) {hh : α} (h : xs.head? = some hh) :
    ∀ x ∈ xs, hh ≤ x := by
  cases xs with
  | nil => cases h
  | cons a t =>
    obtain rfl : hh = a := by simpa using h.symm
    intro x hx
    rcases List.mem_cons.mp hx with rfl | hx2
    · exact le_refl x
    · exact le_of_lt (List.rel_of_pairwise_cons hp hx2)

/-- Filtering a strictly increasing list for elements beyond the last
element of its `n`-prefix drops exactly that prefix. -/
theorem filter_after_take {α : Type} [LinearOrder α] (n : ℕ) (rest : List α)
    (hs : rest.Pairwise (· < ·)) (l : α) (hl : (rest.take n).getLast? = some l) :
    rest.filter (fun d => decide (l < d)) = rest.drop n := by
  have hsplit := List.take_append_drop n rest
  have hp : ((rest.take n) ++ (rest.drop n)).Pairwise (· < ·) := by
    rw [hsplit]; exact hs
  obtain ⟨hp1, hp2, hcross⟩ := List.pairwise_append.mp hp
  have hlmem : l ∈ rest.take n := List.mem_of_mem_getLast? hl
  conv_lhs => rw [← hsplit]
  rw [List.filter_append]
  have h1 : (rest.take n).filter (fun d => decide (l < d)) = [] := by
    rw [List.filter_eq_nil_iff]
    intro x hx
    simp only [decide_eq_true_eq, not_lt]
    exact le_getLast?_pairwise _ hp1 x hx l hl
  have h2 : (rest.drop n).filter (fun d => decide (l < d)) = rest.drop n := by
    rw [List.filter_eq_self]
    intro x hx
    simp only [decide_eq_true_eq]
    exact hcross l hlmem x hx
  rw [h1, h2, List.nil_append]

/-- The remainder of a strictly increasing key list strictly after the
last element of one engine page is the remainder after dropping that
page. -/
theorem restOf_step {α : Type} [LinearOrder α] (L : List α)
    (hL : L.Pairwise (· < ·)) (a : Option α) (l : α)
    (hl : (pageAfter L a).getLast? = some l) :
    restOf L (some l) = (restOf L a).drop 10 := by
  have hrp : (restOf L a).Pairwise (· < ·) := by
    cases a with
    | none => exact hL
    | some c => exact List.Pairwise.sublist (List.filter_sublist L) hL
  have hfilter := filter_after_take 10 (restOf L a) hrp l hl
  cases a with
  | none => exact hfilter
  | some c =>
    have hcl : c < l := by
      have hmem : l ∈ (restOf L (some c)).take 10 := List.mem_of_mem_getLast? hl
      have hmem2 : l ∈ restOf L (some c) :=
        (List.take_sublist 10 _).subset hmem
      have := List.mem_filter.mp hmem2
      exact of_decide_eq_true this.2
    show L.filter (fun d => decide (l < d)) = _
    rw [← hfilter]
    show L.filter _ = (L.filter (fun d => decide (c < d))).filter
      (fun d => decide (l < d))
    rw [List.filter_filter]
    apply List.filter_congr
    intro x _
    by_cases hlx : l < x
    · simp [hlx, lt_trans hcl hlx]
    · simp [hlx]

/-- With enough fuel, the enumeration loop appends exactly the
remaining keys. -/
theorem loadTagsLoop_spec {α : Type} [LinearOrder α] (L : List α)
    (hL : L.Pairwise (· < ·)) :
    ∀ (fuel : ℕ) (acc : List α) (a : Option α),
      (restOf L a).length < fuel →
        loadTagsLoop L fuel acc a = acc ++ restOf L a := by
  intro fuel
  induction fuel with
  | zero => intro acc a h; omega
  | succ fuel ih =>
    intro acc a hlen
    by_cases hp : (pageAfter L a).isEmpty
    · have hnil : restOf L a = [] := by
        have h0 : (restOf L a).take 10 = [] := List.isEmpty_iff.mp hp
        rcases List.take_eq_nil_iff.mp h0 with h | h
        · omega
        · exact h
      simp [loadTagsLoop, hp, hnil]
    · have hne : pageAfter L a ≠ [] := fun h => hp (by simp [h])
      have hl : (pageAfter L a).getLast? = some ((pageAfter L a).getLast hne) :=
        List.getLast?_eq_getLast _ hne
      have hstep := restOf_step L hL a _ hl
      have hpos : 0 < (restOf L a).length := by
        rcases Nat.eq_zero_or_pos (restOf L a).length with h0 | h0
        · exact absurd (by simp [pageAfter, List.eq_nil_of_length_eq_zero h0])
            hne
        · exact h0
      have hlen2 : (restOf L (some ((pageAfter L a).getLast hne))).length <
          fuel := by
        rw [hstep, List.length_drop]
        omega
      rw [show loadTagsLoop L (fuel + 1) acc a =
        loadTagsLoop L fuel (acc ++ pageAfter L a) (pageAfter L a).getLast?
        from by simp [loadTagsLoop, hp], hl, ih _ _ hlen2, hstep]
      rw [List.append_assoc]
      congr 1
      exact List.take_append_drop 10 (restOf L a)

/-- The remainder after any cursor of a strictly increasing list is
strictly increasing. -/
theorem restOf_pairwise {α : Type} [LinearOrder α] (L : List α)
    (hL : L.Pairwise (· < ·)) (a : Option α) :
    (restOf L a).Pairwise (· < ·) := by
  cases a with
  | none => exact hL
  | some c => exact List.Pairwise.sublist (List.filter_sublist L) hL

/-- C2: over the modelled keyset-pagination engine (a strictly
increasing document list under the active total sort order, pages being
the first ten documents strictly after the cursor), every page has at
most ten hits, the client's next cursor is the sort key of the page's
last hit (none for an empty page), and re-issuing the search with that
cursor returns no document of the previous page and skips no document
sorting strictly between the cursor and the next page's first hit. -/
theorem c2_keyset_pagination {α : Type} [LinearOrder α] (docs : List α)
    (hs : docs.Pairwise (· < ·)) (cursor : Option α) :
    (pageAfter docs cursor).length ≤ 10 ∧
    clientNextCursor (pageAfter docs cursor) = (pageAfter docs cursor).getLast? ∧
    ∀ l, clientNextCursor (pageAfter docs cursor) = some l →
      (∀ d ∈ pageAfter docs (some l), d ∉ pageAfter docs cursor) ∧
      (∀ d ∈ docs, l < d → ∀ h2, (pageAfter docs (some l)).head? = some h2 →
        d < h2 → False) := by
  have hrp : (restOf docs cursor).Pairwise (· < ·) := restOf_pairwise docs hs cursor
  have hpp : (pageAfter docs cursor).Pairwise (· < ·) :=
    List.Pairwise.sublist (List.take_sublist 10 _) hrp
  have hclient : ∀ p : List α, clientNextCursor p = p.getLast? := by
    intro p
    cases p with
    | nil => rfl
    | cons x q => simp [clientNextCursor]
  refine ⟨?_, hclient _, ?_⟩
  · exact List.length_take_le 10 _
  · intro l hl
    rw [hclient _] at hl
    constructor
    · intro d hd hdp1
      have hd2 : d ∈ restOf docs (some l) := (List.take_sublist 10 _).subset hd
      have hld : l < d := of_decide_eq_true (List.mem_filter.mp hd2).2
      have hdl : d ≤ l := le_getLast?_pairwise _ hpp d hdp1 l hl
      exact absurd (lt_of_le_of_lt hdl hld) (lt_irrefl d)
    · intro d hdmem hld h2 hh2 hdh2
      have hd2 : d ∈ restOf docs (some l) :=
        List.mem_filter.mpr ⟨hdmem, decide_eq_true hld⟩
      have hrp2 : (restOf docs (some l)).Pairwise (· < ·) :=
        restOf_pairwise docs hs (some l)
      cases hr : restOf docs (some l) with
      | nil => rw [hr] at hd2; cases hd2
      | cons a t =>
        have hh2a : h2 = a := by
          have : (pageAfter docs (some l)).head? = some a := by
            simp [pageAfter, hr, List.take_succ_cons]
          rw [this] at hh2
          exact (Option.some.injEq _ _ ▸ hh2).symm
        have had : a ≤ d := by
          refine head?_le_pairwise _ (hr ▸ hrp2) ?_ d (hr ▸ hd2)
          rfl
        rw [hh2a] at hdh2
        exact absurd (lt_of_le_of_lt had hdh2) (lt_irrefl a)

/-- C2 (witness): twelve documents with no cursor — the first page is
the first ten, and the keyset properties hold at the concrete input. -/
theorem c2_keyset_pagination_witness :
    ([1, 2, 3, 4, 5, 6, 7, 8, 9, 10, 11, 12] : List ℕ).Pairwise (· < ·) ∧
    (((pageAfter [1, 2, 3, 4, 5, 6, 7, 8, 9, 10, 11, 12] (none : Option ℕ)).length ≤ 10) ∧
      clientNextCursor (pageAfter [1, 2, 3, 4, 5, 6, 7, 8, 9, 10, 11, 12] none) =
        (pageAfter [1, 2, 3, 4, 5, 6, 7, 8, 9, 10, 11, 12] none).getLast? ∧
      ∀ l, clientNextCursor (pageAfter [1, 2, 3, 4, 5, 6, 7, 8, 9, 10, 11, 12] none) =
          some l →
        (∀ d ∈ pageAfter [1, 2, 3, 4, 5, 6, 7, 8, 9, 10, 11, 12] (some l),
          d ∉ pageAfter [1, 2, 3, 4, 5, 6, 7, 8, 9, 10, 11, 12] none) ∧
        (∀ d ∈ [1, 2, 3, 4, 5, 6, 7, 8, 9, 10, 11, 12], l < d →
          ∀ h2, (pageAfter [1, 2, 3, 4, 5, 6, 7, 8, 9, 10, 11, 12] (some l)).head? =
            some h2 → d < h2 → False)) :=
  ⟨by decide, c2_keyset_pagination [1, 2, 3, 4, 5, 6, 7, 8, 9, 10, 11, 12]
    (by decide) none⟩

/-- C9: over the modelled composite-aggregation engine (the strictly
increasing list of distinct composite id+name keys, pages of ten keys
strictly after the `after` key, `after_key` being the last returned
bucket's key), the enumeration loop — accumulate buckets, re-issue with
the latest after key, stop on an empty page — returns exactly the full
key list: complete, duplicate-free, every distinct key visited exactly
once. -/
theorem c9_facet_enumeration {α : Type} [LinearOrder α] (keys : List α)
    (h : keys.Pairwise (· < ·)) :
    loadTags keys = keys ∧ (loadTags keys).Nodup ∧
      ∀ k ∈ keys, (loadTags keys).count k = 1 := by
  have he : loadTags keys = keys := by
    have hstep := loadTagsLoop_spec keys h (keys.length + 1) [] none
      (by simp [restOf])
    simpa [loadTags, restOf] using hstep
  have hnd : (loadTags keys).Nodup := by
    rw [he]
    exact h.imp ne_of_lt
  refine ⟨he, hnd, fun k hk => ?_⟩
  have hnd2 : keys.Nodup := he ▸ hnd
  rw [he]
  exact List.count_eq_one_of_mem hnd2 hk

/-- C9 (witness): twenty-five keys enumerate in three pages to exactly
the original duplicate-free list. -/
theorem c9_facet_enumeration_witness :
    ((List.range 25).Pairwise (· < ·)) ∧
    (loadTags (List.range 25) = List.range 25 ∧
      (loadTags (List.range 25)).Nodup ∧
      ∀ k ∈ List.range 25, (loadTags (List.range 25)).count k = 1) :=
  ⟨by decide, c9_facet_enumeration (List.range 25) (by decide)⟩

/-- Every character code point is below 0x110000. -/
theorem char_toNat_lt (c : Char) : c.toNat < 1114112 := by
  have ht : c.toNat = c.val.toNat := rfl
  rcases c.valid with h | h
  · have h2 : c.val.toNat < 55296 := h
    omega
  · obtain ⟨h1, h2⟩ := h
    have h3 : c.val.toNat < 1114112 := h2
    omega

/-- Hex digits decode to their value. -/
theorem hexVal2_hexDigitChar : ∀ d : ℕ, d < 16 →
    hexVal2 (hexDigitChar d) = some d := by
  decide

/-- Hex digit characters are never the separators `&` or `=`. -/
theorem hexDigitChar_ne (d : ℕ) :
    hexDigitChar d ≠ '&' ∧ hexDigitChar d ≠ '=' := by
  unfold hexDigitChar
  split <;> exact ⟨by decide, by decide⟩

/-- Safe characters are not the percent sign. -/
theorem safeChar_ne_pct {c : Char} (h : safeChar c = true) : ¬(c = '%') := by
  intro e
  rw [e] at h
  exact absurd h (by decide)

/-- Safe characters are single-byte code points. -/
theorem safeChar_lt {c : Char} (h : safeChar c = true) : c.toNat < 128 := by
  simp only [safeChar, Bool.and_eq_true, decide_eq_true_eq] at h
  exact h.1

/-- Safe characters are never the separators `&` or `=`. -/
theorem safeChar_ne_sep {c : Char} (h : safeChar c = true) :
    c ≠ '&' ∧ c ≠ '=' := by
  constructor <;> intro e <;> rw [e] at h <;> exact absurd h (by decide)

/-- UTF-8 bytes are bytes. -/
theorem utf8Bytes_lt (c : Char) : ∀ b ∈ utf8Bytes c, b < 256 := by
  have hv := char_toNat_lt c
  intro b hb
  simp only [utf8Bytes] at hb
  split_ifs at hb with h1 h2 h3
  · simp at hb
    omega
  · simp at hb
    rcases hb with rfl | rfl <;> omega
  · simp at hb
    rcases hb with rfl | rfl | rfl <;> omega
  · simp at hb
    rcases hb with rfl | rfl | rfl | rfl <;> omega

/-- Unfolding equation for `pctBytes` at a non-percent character. -/
theorem pctBytes_cons_ne (c : Char) (rest : List Char) (h : ¬(c = '%')) :
    pctBytes (c :: rest) = (pctBytes rest).map (fun bs => c.toNat :: bs) := by
  conv_lhs => rw [pctBytes.eq_def]
  simp only [if_neg h]

/-- Decoding a percent-escaped byte prepends it to the remaining byte
stream. -/
theorem pctBytes_byteHex (b : ℕ) (hb : b < 256) (rest : List Char) :
    pctBytes (byteHex b ++ rest) = (pctBytes rest).map (fun bs => b :: bs) := by
  show pctBytes ('%' :: hexDigitChar (b / 16) :: hexDigitChar (b % 16) :: rest) = _
  simp only [pctBytes, if_pos rfl, hexVal2_hexDigitChar (b / 16) (by omega),
    hexVal2_hexDigitChar (b % 16) (by omega)]
  cases hp : pctBytes rest with
  | none => rfl
  | some bs =>
    simp [show 16 * (b / 16) + b % 16 = b from by omega]

/-- Byte-level decoding of one percent-encoded character prepends its
UTF-8 bytes. -/
theorem pctBytes_encChar (c : Char) (rest : List Char) :
    pctBytes (percentEncodeChar c ++ rest) =
      (pctBytes rest).map (fun bs => utf8Bytes c ++ bs) := by
  by_cases hs : safeChar c
  · simp only [percentEncodeChar, if_pos hs]
    show pctBytes (c :: rest) = _
    rw [pctBytes_cons_ne c rest (safeChar_ne_pct hs)]
    rw [show utf8Bytes c = [c.toNat] from by
      simp only [utf8Bytes]
      rw [if_pos (safeChar_lt hs)]]
    cases hp : pctBytes rest <;> rfl
  · simp only [percentEncodeChar, if_neg hs]
    have aux : ∀ bs : List ℕ, (∀ b ∈ bs, b < 256) →
        pctBytes ((bs.map byteHex).flatten ++ rest) =
          (pctBytes rest).map (fun l => bs ++ l) := by
      intro bs
      induction bs with
      | nil =>
        intro _
        simp only [List.map_nil, List.flatten_nil, List.nil_append]
        cases hp : pctBytes rest <;> rfl
      | cons b t ih =>
        intro hlt
        simp only [List.map_cons, List.flatten_cons, List.append_assoc]
        rw [pctBytes_byteHex b (hlt b (by simp)) _,
          ih fun x hx => hlt x (by simp [hx])]
        cases hp : pctBytes rest <;> rfl
    exact aux (utf8Bytes c) (utf8Bytes_lt c)

/-- Folding the UTF-8 bytes of one character over the decoder step
from a clean state contributes exactly that character. -/
theorem utf8Fold_encChar (c : Char) (acc : Option (List Char)) :
    (utf8Bytes c).foldr (fun b st => utf8Step b st.1 st.2) ([], acc) =
      ([], acc.map (fun cs => c :: cs)) := by
  have hv := char_toNat_lt c
  have hoc := Char.ofNat_toNat c
  by_cases h1 : c.toNat < 128
  · rw [show utf8Bytes c = [c.toNat] from by
      simp only [utf8Bytes]
      rw [if_pos h1]]
    simp only [List.foldr_cons, List.foldr_nil]
    simp only [utf8Step]
    rw [if_neg (by simp only [isCont, Bool.and_eq_true, decide_eq_true_eq]; omega), if_pos h1, hoc]
  · by_cases h2 : c.toNat < 2048
    · rw [show utf8Bytes c = [192 + c.toNat / 64, 128 + c.toNat % 64] from by
        simp only [utf8Bytes]
        rw [if_neg h1, if_pos h2]]
      simp only [List.foldr_cons, List.foldr_nil]
      rw [show utf8Step (128 + c.toNat % 64) [] acc =
          ([128 + c.toNat % 64], acc) from by
        simp only [utf8Step]
        rw [if_pos (by simp only [isCont, Bool.and_eq_true, decide_eq_true_eq]; omega)]]
      simp only [utf8Step]
      rw [if_neg (by simp only [isCont, Bool.and_eq_true, decide_eq_true_eq]; omega), if_neg (by omega), if_pos (by omega)]
      rw [show (192 + c.toNat / 64 - 192) * 64 + (128 + c.toNat % 64 - 128) =
        c.toNat from by omega, hoc]
    · by_cases h3 : c.toNat < 65536
      · rw [show utf8Bytes c = [224 + c.toNat / 4096, 128 + c.toNat / 64 % 64,
          128 + c.toNat % 64] from by
          simp only [utf8Bytes]
          rw [if_neg h1, if_neg h2, if_pos h3]]
        simp only [List.foldr_cons, List.foldr_nil]
        rw [show utf8Step (128 + c.toNat % 64) [] acc =
            ([128 + c.toNat % 64], acc) from by
          simp only [utf8Step]
          rw [if_pos (by simp only [isCont, Bool.and_eq_true, decide_eq_true_eq]; omega)]]
        rw [show utf8Step (128 + c.toNat / 64 % 64) [128 + c.toNat % 64] acc =
            ([128 + c.toNat / 64 % 64, 128 + c.toNat % 64], acc) from by
          simp only [utf8Step]
          rw [if_pos (by simp only [isCont, Bool.and_eq_true, decide_eq_true_eq]; omega)]]
        simp only [utf8Step]
        rw [if_neg (by simp only [isCont, Bool.and_eq_true, decide_eq_true_eq]; omega), if_neg (by omega), if_neg (by omega), if_pos (by omega)]
        rw [show (224 + c.toNat / 4096 - 224) * 4096 +
            (128 + c.toNat / 64 % 64 - 128) * 64 +
            (128 + c.toNat % 64 - 128) = c.toNat from by omega, hoc]
      · rw [show utf8Bytes c = [240 + c.toNat / 262144,
          128 + c.toNat / 4096 % 64, 128 + c.toNat / 64 % 64,
          128 + c.toNat % 64] from by
          simp only [utf8Bytes]
          rw [if_neg h1, if_neg h2, if_neg h3]]
        simp only [List.foldr_cons, List.foldr_nil]
        rw [show utf8Step (128 + c.toNat % 64) [] acc =
            ([128 + c.toNat % 64], acc) from by
          simp only [utf8Step]
          rw [if_pos (by simp only [isCont, Bool.and_eq_true, decide_eq_true_eq]; omega)]]
        rw [show utf8Step (128 + c.toNat / 64 % 64) [128 + c.toNat % 64] acc =
            ([128 + c.toNat / 64 % 64, 128 + c.toNat % 64], acc) from by
          simp only [utf8Step]
          rw [if_pos (by simp only [isCont, Bool.and_eq_true, decide_eq_true_eq]; omega)]]
        rw [show utf8Step (128 + c.toNat / 4096 % 64)
            [128 + c.toNat / 64 % 64, 128 + c.toNat % 64] acc =
            ([128 + c.toNat / 4096 % 64,
              128 + c.toNat / 64 % 64, 128 + c.toNat % 64], acc) from by
          simp only [utf8Step]
          rw [if_pos (by simp only [isCont, Bool.and_eq_true, decide_eq_true_eq]; omega)]]
        simp only [utf8Step]
        rw [if_neg (by simp only [isCont, Bool.and_eq_true, decide_eq_true_eq]; omega), if_neg (by omega), if_neg (by omega), if_neg (by omega)]
        rw [show (240 + c.toNat / 262144 - 240) * 262144 +
            (128 + c.toNat / 4096 % 64 - 128) * 4096 +
            (128 + c.toNat / 64 % 64 - 128) * 64 +
            (128 + c.toNat % 64 - 128) = c.toNat from by omega, hoc]

/-- Folding the UTF-8 encoding of a string over the decoder step from a
clean state contributes exactly that string. -/
theorem utf8Fold_encode (s : List Char) (acc : Option (List Char)) :
    ((s.map utf8Bytes).flatten).foldr (fun b st => utf8Step b st.1 st.2)
        ([], acc) = ([], acc.map (fun cs => s ++ cs)) := by
  induction s generalizing acc with
  | nil =>
    simp only [List.map_nil, List.flatten_nil, List.foldr_nil]
    cases acc <;> rfl
  | cons c t ih =>
    simp only [List.map_cons, List.flatten_cons, List.foldr_append]
    rw [ih acc, utf8Fold_encChar c _]
    cases acc <;> rfl

/-- Byte-level decoding of a percent-encoded string yields its UTF-8
bytes. -/
theorem pctBytes_encode (s : List Char) : ∀ rest : List Char,
    pctBytes (percentEncode s ++ rest) =
      (pctBytes rest).map (fun bs => (s.map utf8Bytes).flatten ++ bs) := by
  induction s with
  | nil =>
    intro rest
    simp only [percentEncode, List.map_nil, List.flatten_nil, List.nil_append]
    cases hp : pctBytes rest <;> rfl
  | cons c t ih =>
    intro rest
    show pctBytes ((percentEncodeChar c ++ percentEncode t) ++ rest) = _
    rw [List.append_assoc, pctBytes_encChar c _, ih rest]
    cases hp : pctBytes rest <;> simp

/-- Percent decoding inverts percent encoding. -/
theorem percent_roundtrip (s : List Char) :
    percentDecode (percentEncode s) = some s := by
  have h1 : pctBytes (percentEncode s) = some ((s.map utf8Bytes).flatten) := by
    have h := pctBytes_encode s []
    rw [List.append_nil] at h
    rw [h, show pctBytes [] = some [] from rfl]
    simp
  have h2 : utf8Decode ((s.map utf8Bytes).flatten) = some s := by
    unfold utf8Decode
    rw [utf8Fold_encode s (some [])]
    simp
  rw [percentDecode, h1]
  exact h2

/-- Percent-encoded text never contains the separators `&` or `=`. -/
theorem percentEncode_sep (s : List Char) :
    ∀ x ∈ percentEncode s, x ≠ '&' ∧ x ≠ '=' := by
  intro x hx
  simp only [percentEncode, List.mem_flatten, List.mem_map] at hx
  obtain ⟨chunk, ⟨c, hc, rfl⟩, hxc⟩ := hx
  by_cases hs : safeChar c
  · simp only [percentEncodeChar, if_pos hs, List.mem_singleton] at hxc
    subst hxc
    exact safeChar_ne_sep hs
  · simp only [percentEncodeChar, if_neg hs, List.mem_flatten,
      List.mem_map] at hxc
    obtain ⟨hchunk, ⟨b, hb, rfl⟩, hxb⟩ := hxc
    simp only [byteHex, List.mem_cons, List.not_mem_nil, or_false] at hxb
    rcases hxb with rfl | rfl | rfl
    · exact ⟨by decide, by decide⟩
    · exact hexDigitChar_ne _
    · exact hexDigitChar_ne _

/-- Splitting at the first `=` of an encoded pair recovers its halves
when the key half contains no `=`. -/
theorem splitOnFirst_append (k v : List Char) (h : '=' ∉ k) :
    splitOnFirst '=' (k ++ '=' :: v) = (k, some v) := by
  induction k with
  | nil => simp [splitOnFirst]
  | cons a t ih =>
    have iht := ih fun hm => h (List.mem_cons_of_mem a hm)
    simp only [List.cons_append, splitOnFirst]
    rw [if_neg fun e => h (by rw [e]; exact List.mem_cons_self _ _)]
    rw [show splitOnFirst '=' (t.append ('=' :: v)) = (t, some v) from iht]

/-- A `filterMap` that always succeeds is a `map`. -/
theorem filterMap_some_eq_map {α β : Type} (f : α → β) (l : List α) :
    l.filterMap (fun a => some (f a)) = l.map f := by
  induction l with
  | nil => rfl
  | cons a t ih => simp [List.filterMap_cons, ih]

/-- Factoring an option-map `filterMap` through the present pairs. -/
theorem filterMap_opt_factor {β : Type} (g : String → String → β)
    (l : List (String × Option String)) :
    l.filterMap (fun kv => kv.2.map (fun v => g kv.1 v)) =
      (l.filterMap (fun kv => kv.2.map (fun v => (kv.1, v)))).map
        (fun p => g p.1 p.2) := by
  induction l with
  | nil => rfl
  | cons kv rest ih =>
    cases hv : kv.2 with
    | none => simp [List.filterMap_cons, hv, ih]
    | some v => simp [List.filterMap_cons, hv, ih]

/-- Parsing inverts stringification: the parsed entries are exactly the
present key/value pairs of the encoded query. -/
theorem parse_stringify (l : List (String × Option String)) :
    parsePairs (stringifyPairs l) = l.filterMap presentPair := by
  have hchunks : l.filterMap (fun kv => kv.2.map (fun v =>
      percentEncode kv.1.data ++ '=' :: percentEncode v.data)) =
      (l.filterMap (fun kv => kv.2.map (fun v => (kv.1, v)))).map
        (fun p => percentEncode p.1.data ++ '=' :: percentEncode p.2.data) :=
    filterMap_opt_factor
      (fun a b => percentEncode a.data ++ '=' :: percentEncode b.data) l
  have hpresent : l.filterMap presentPair =
      (l.filterMap (fun kv => kv.2.map (fun v => (kv.1, v)))).map
        (fun p => (p.1, some p.2)) :=
    filterMap_opt_factor (fun a b => (a, some b)) l
  set pres := l.filterMap (fun kv => kv.2.map (fun v => (kv.1, v))) with hpres
  rw [hpresent]
  show parsePairs (List.intercalate ['&'] _) = _
  rw [hchunks]
  cases hp : pres with
  | nil =>
    simp [parsePairs, List.intercalate]
  | cons p ps =>
    have hnoamp : ∀ part ∈ (p :: ps).map
        (fun p => percentEncode p.1.data ++ '=' :: percentEncode p.2.data),
        ('&' : Char) ∉ part := by
      intro part hpart hx
      obtain ⟨q, _, rfl⟩ := List.mem_map.mp hpart
      rcases List.mem_append.mp hx with hx | hx
      · exact (percentEncode_sep _ _ hx).1 rfl
      · rcases List.mem_cons.mp hx with hx | hx
        · exact absurd hx (by decide)
        · exact (percentEncode_sep _ _ hx).1 rfl
    have hsplit := List.splitOn_intercalate
      ((p :: ps).map (fun p => percentEncode p.1.data ++ '=' :: percentEncode p.2.data))
      '&' hnoamp (by simp)
    have hne : (List.intercalate ['&'] ((p :: ps).map
        (fun p => percentEncode p.1.data ++ '=' :: percentEncode p.2.data))).isEmpty
        = false := by
      cases hi : List.intercalate ['&'] ((p :: ps).map
        (fun p => percentEncode p.1.data ++ '=' :: percentEncode p.2.data)) with
      | nil =>
        rw [hi] at hsplit
        have : ('=' : Char) ∈ percentEncode p.1.data ++ '=' ::
            percentEncode p.2.data :=
          List.mem_append.mpr (Or.inr (List.mem_cons_self _ _))
        rw [show List.splitOn '&' ([] : List Char) = [[]] from rfl] at hsplit
        have h0 : percentEncode p.1.data ++ '=' :: percentEncode p.2.data =
            ([] : List Char) := by
          have := congrArg List.head? hsplit
          simpa using this.symm
        rw [h0] at this
        cases this
      | cons a t => rfl
    simp only [parsePairs, hne, Bool.false_eq_true, if_false, hsplit]
    rw [List.filterMap_map]
    have hstep : ∀ q : String × String,
        (fun part : List Char =>
          match splitOnFirst '=' part with
          | (k, v) =>
            match percentDecode k with
            | none => none
            | some kd =>
              some ((⟨kd⟩ : String), match v with
                | none => none
                | some vv => (percentDecode vv).map
                    (fun cs => (⟨cs⟩ : String))))
          ((fun p : String × String =>
            percentEncode p.1.data ++ '=' :: percentEncode p.2.data) q) =
          some (q.1, some q.2) := by
      intro q
      show (match splitOnFirst '='
          (percentEncode q.1.data ++ '=' :: percentEncode q.2.data) with
        | (k, v) => _) = _
      rw [splitOnFirst_append _ _ fun hm => (percentEncode_sep _ _ hm).2 rfl]
      simp only [percent_roundtrip]
      rfl
    calc ((p :: ps).filterMap fun a =>
          (fun part : List Char =>
            match splitOnFirst '=' part with
            | (k, v) =>
              match percentDecode k with
              | none => none
              | some kd =>
                some ((⟨kd⟩ : String), match v with
                  | none => none
                  | some vv => (percentDecode vv).map
                      (fun cs => (⟨cs⟩ : String))))
            ((fun p : String × String =>
              percentEncode p.1.data ++ '=' :: percentEncode p.2.data) a)) =
        (p :: ps).filterMap (fun q => some (q.1, some q.2)) := by
          exact List.filterMap_congr fun q _ => hstep q
      _ = (p :: ps).map (fun q => (q.1, some q.2)) := by
          exact filterMap_some_eq_map (fun q => (q.1, some q.2)) (p :: ps)

/-- C5 (counterexample): a float sort value that JavaScript prints in
exponential notation — here a relevance score of 1e-7 — round-trips to
the wrong number: the token `"1e-7"` contains no dot, so the
content-sniffing decoder applies `parseInt` and recovers 1 instead of
the original 1/10^7; the decoder consults token content, not the
sort-field schema. -/
theorem c5_cursor_roundtrip_counterexample :
    clientEncodeKey [SortVal.expVal 1 (-7), .intVal 42] = ["1e-7", "42"] ∧
    createSearchAfterClause
        (some (.inr (clientEncodeKey [SortVal.expVal 1 (-7), .intVal 42]))) =
      some [.jnum (.num 1), .str "42"] ∧
    svVal (.expVal 1 (-7)) = .jnum (.num (1 / 10 ^ (7 : ℕ))) ∧
    DecVal.jnum (.num 1) ≠ .jnum (.num (1 / 10 ^ (7 : ℕ))) := by
  have henc : clientEncodeKey [SortVal.expVal 1 (-7), .intVal 42] =
      ["1e-7", "42"] := by decide
  refine ⟨henc, ?_, ?_, ?_⟩
  · rw [henc]
    have h2 : createSearchAfterClause (some (.inr ["1e-7", "42"])) =
        some [.jnum (.num ((1 : ℚ) * ((digitsVal ['1'] : ℕ) : ℚ))), .str "42"] :=
      rfl
    rw [h2]
    norm_num [digitsVal, digitVal, show ('1').toNat = 49 from rfl]
  · have h3 : svVal (.expVal 1 (-7)) =
        .jnum (.num (((1 : ℤ) : ℚ) / 10 ^ ((7 : ℤ)).toNat)) := rfl
    rw [h3]
    norm_num [show ((7 : ℤ)).toNat = 7 from rfl]
  · simp only [ne_eq, DecVal.jnum.injEq, JSNum.num.injEq]
    norm_num

/-- C5 (amended): stringifying a sort tuple on the client and decoding
it in `createSearchAfterClause` recovers the original typed tuple
whenever every non-final element prints in plain decimal notation (a
whole number, or a finite non-integer decimal, whose token then
contains a dot) or is an engine `Infinity` string; the numeric type is
inferred from the token's content (`Infinity` passthrough, dot means
float parse, otherwise integer parse) rather than from a sort-field
schema, and the final tie-break token is passed through unmodified. -/
theorem c5_cursor_roundtrip (vs : List SortVal) (lastV : SortVal)
    (h : ∀ v ∈ vs, CursorWf v = true) :
    createSearchAfterClause (some (.inr (clientEncodeKey (vs ++ [lastV])))) =
      some (vs.map svVal ++ [.str (svToString lastV)]) := by
  have harr : clientEncodeKey (vs ++ [lastV]) =
      vs.map svToString ++ [svToString lastV] := by
    simp [clientEncodeKey]
  have hstep : createSearchAfterClause
      (some (.inr (vs.map svToString ++ [svToString lastV]))) =
      some (mapIdxFrom (fun i item =>
        if i != (vs.map svToString ++ [svToString lastV]).length - 1
        then decodeCursorTok item else .str item) 0
        (vs.map svToString ++ [svToString lastV])) := rfl
  have hlen : (vs.map svToString ++ [svToString lastV]).length - 1 =
      (vs.map svToString).length := by
    simp
  rw [harr, hstep, hlen,
    mapIdxFrom_snoc decodeCursorTok DecVal.str (vs.map svToString)
      (svToString lastV) 0 (vs.map svToString).length (by omega)]
  have hmm : (vs.map svToString).map decodeCursorTok = vs.map svVal := by
    rw [List.map_map]
    exact List.map_congr_left fun v hv => decodeCursorTok_svToString (h v hv)
  rw [hmm]

/-- C5 (witness): a concrete four-element cursor — a plain decimal
float, a negative integer, an engine Infinity string, and a final
identifier — round-trips exactly. -/
theorem c5_cursor_roundtrip_witness :
    (∀ v ∈ [SortVal.floatVal false 7 [5], .intVal (-3), .strVal "Infinity"],
      CursorWf v = true) ∧
    createSearchAfterClause (some (.inr (clientEncodeKey
        ([SortVal.floatVal false 7 [5], .intVal (-3), .strVal "Infinity"] ++
          [.intVal 42])))) =
      some ([SortVal.floatVal false 7 [5], .intVal (-3), .strVal "Infinity"].map
        svVal ++ [.str (svToString (.intVal 42))]) :=
  ⟨by decide,
    c5_cursor_roundtrip [SortVal.floatVal false 7 [5], .intVal (-3),
      .strVal "Infinity"] (.intVal 42) (by decide)⟩

/-- C1 (counterexample): with the `keywords` parameter present as the
empty string, the parameter is present (`some`) yet the rank-ascending
popularity tie-breaker is still added to the sort, contradicting the
claim that it appears only when no `keywords` parameter is present. -/
theorem c1_sort_spec_counterexample :
    (some (Sum.inl "") : QP) ≠ none ∧
    handlerSortList none (some (Sum.inl "")) none =
      [SortClause.score, .field "rank" .asc false, .field "id" .asc false] := by
  exact ⟨by simp, rfl⟩

/-- C1 (amended): for every request, the compiled sort is exactly the
optional primary clause per the `sort` parameter (none for relevance or
anything unrecognized; rank, rating, or weight in their requested
directions, flipped by `reverse`), always followed by the relevance
score, then a rank-ascending popularity tie-breaker exactly when the
`keywords` parameter is falsy (absent or a single empty string), then
the id field ascending (descending when `reverse` is set). -/
theorem c1_sort_spec :
    (∀ sortP keywordsP reverseP : QP,
      handlerSortList sortP keywordsP reverseP =
        (createSortClause sortP (parseReverse reverseP)).toList
        ++ [SortClause.score]
        ++ (if truthy keywordsP then [] else [SortClause.field "rank" .asc false])
        ++ [SortClause.field "id" (if parseReverse reverseP then .desc else .asc) false]) ∧
    (∀ rev : Bool,
      createSortClause (some (.inl "rank")) rev =
        some (.field "rank" (if rev then .desc else .asc) false) ∧
      createSortClause (some (.inl "rating")) rev =
        some (.field "rating" (if rev then .asc else .desc) false) ∧
      createSortClause (some (.inl "weight")) rev =
        some (.field "weight" (if rev then .desc else .asc) true) ∧
      createSortClause (some (.inl "relevance")) rev = none ∧
      createSortClause none rev = none) := by
  constructor
  · intro sortP keywordsP reverseP
    cases h : createSortClause sortP (parseReverse reverseP) <;>
      cases h2 : truthy keywordsP <;>
        simp [handlerSortList, h, h2, List.reduceOption]
  · intro rev
    cases rev <;> exact ⟨rfl, rfl, rfl, rfl, rfl⟩

/-- C4: range-bucket filter compilation.  First, the players selections
`["2","4"]` compile to the OR of exactly the two per-count conjunctive
range predicates.  Second, values that name no known bucket are silently
dropped: restricting the selection to recognized keys never changes the
clause.  Third, a family with an empty (hence unrecognized) selection
contributes no clause.  Fourth, on a concrete request the handler's
filter group is the AND-list of the recognized families' clauses in
source order, families with no recognized selection contributing
nothing. -/
theorem c4_filter_clauses :
    (createFilterClause PLAYERS_RANGES (some (.inr ["2", "4"])) =
      some (.anyOf
        [.allOf [⟨"min_players", none, some 2⟩, ⟨"max_players", some 2, none⟩],
         .allOf [⟨"min_players", none, some 4⟩, ⟨"max_players", some 4, none⟩]])) ∧
    (∀ (ranges : List (String × FamilyPred)) (l : List String),
      createFilterClause ranges (some (.inr l)) =
        createFilterClause ranges (some (.inr (l.filter (knownKey ranges))))) ∧
    (∀ ranges : List (String × FamilyPred),
      createFilterClause ranges (some (.inr [])) = none) ∧
    (handlerFilterGroup reqC4 =
      [.anyOf [.atom ⟨"rank", none, some 100⟩],
       .anyOf
        [.allOf [⟨"min_players", none, some 2⟩, ⟨"max_players", some 2, none⟩],
         .allOf [⟨"min_players", none, some 4⟩, ⟨"max_players", some 4, none⟩]]]) := by
  refine ⟨rfl, ?_, fun _ => rfl, rfl⟩
  intro ranges l
  simp only [createFilterClause]
  rw [filter_idem]

/-- C6 (counterexample): the malformed cursor token sequence
`["abc", "5"]` is not treated as "no cursor": the handler decodes it
best-effort into a `search_after` clause (the non-numeric non-final
token becoming NaN) instead of restarting pagination. -/
theorem c6_cursor_fallback_counterexample :
    createSearchAfterClause (some (.inr ["abc", "5"])) =
      some [.jnum .nan, .str "5"] ∧
    (some [DecVal.jnum .nan, .str "5"] : Option (List DecVal)) ≠ none := by
  exact ⟨by decide, by simp⟩

/-- C6 (amended): an absent or empty `searchAfterKey` input yields no
`search_after` constraint rather than an error, and a malformed token
sequence is decoded totally (never raising), with non-numeric non-final
tokens becoming NaN, rather than being treated as "no cursor". -/
theorem c6_cursor_fallback :
    createSearchAfterClause none = none ∧
    createSearchAfterClause (some (.inl "")) = none ∧
    createSearchAfterClause (some (.inr ["xyz", "7"])) =
      some [.jnum .nan, .str "7"] := by
  exact ⟨rfl, rfl, by decide⟩

/-- C8 (counterexample): for the all-default request with
`keywords=catan`, the compiled sort is `[score, id asc]` — the
popularity (rank) tie-breaker is omitted because a keyword search is
active — and not the `[score, popularity asc, id asc]` the claim
states. -/
theorem c8_catan_scenario_counterexample :
    (handleSearch reqC8).sort = [SortClause.score, .field "id" .asc false] ∧
    ([SortClause.score, .field "id" .asc false] : List SortClause) ≠
      [SortClause.score, .field "rank" .asc false, .field "id" .asc false] := by
  exact ⟨rfl, by simp⟩

/-- C8 (amended): for the all-default request with `keywords=catan`,
the compiled query has exactly one must clause — a prefix-tolerant
(`bool_prefix`), multi-field, all-terms-required (`and`) match on
"catan" with the name field boosted tenfold over the description — no
filter clauses, no should clauses, no cursor, page size 10, and sort
`[score desc, id asc]` (the popularity tie-breaker being omitted
because the keyword search is active). -/
theorem c8_catan_scenario :
    handleSearch reqC8 =
      { size := 10
        searchAfter := none
        sort := [SortClause.score, .field "id" .asc false]
        must := [⟨"catan", "bool_prefix", ["name^10", "description"], "and"⟩]
        should := []
        filter := [] } := by
  decide

/-- C7: the `loadGames` completion carries no generation token and
never consults the current state, so a late-arriving response for a
superseded filter generation is applied, not discarded.  First conjunct:
the post-completion state depends only on the response and its captured
closure, never on the current state (hence no staleness check can
occur).  Second conjunct, the failing trace: filters change while
request one (hits `[game 1]`) is in flight; request two for the new
filters completes first (hits `[game 2]`); when request one's response
arrives late it overwrites the accumulated list with the stale games
`[1]` and the stale cursor 101, instead of leaving `[2]` in place. -/
theorem c7_no_generation_check :
    (∀ (st st' : ClientState ℕ ℕ) (sa : Option (List ℕ × ℕ))
      (r : SearchResults ℕ ℕ), applyResponse st sa r = applyResponse st' sa r) ∧
    applyResponse
        (applyResponse (⟨[], none, true⟩ : ClientState ℕ ℕ) none
          ⟨[⟨2, 202⟩], 1⟩)
        none ⟨[⟨1, 101⟩], 1⟩ =
      ⟨[1], some 101, false⟩ ∧
    (applyResponse (⟨[], none, true⟩ : ClientState ℕ ℕ) none
        ⟨[⟨2, 202⟩], 1⟩).games = [2] ∧
    ([1] : List ℕ) ≠ [2] := by
  exact ⟨fun st st' sa r => rfl, by decide, by decide, by simp⟩

/-- C10: the `reverse` flag of `/api/search` is `true` exactly when the
`reverse` query parameter arrives as a single string equal to `"1"`;
any array value (repeated parameter), absence, or any other string
yields `false`, and parsing is a total function so no value fails. -/
theorem c10_reverse_flag (p : QP) : parseReverse p = true ↔ p = some (.inl "1") := by
  constructor
  · intro h
    match p with
    | none => simp [parseReverse] at h
    | some (.inl s) =>
      simp only [parseReverse, beq_iff_eq] at h
      simp [h]
    | some (.inr l) => simp [parseReverse] at h
  · intro h
    subst h
    rfl

/-- `encodeFilters` as the explicit list of its twelve entries. -/
theorem encodeFilters_ents (f : SearchFilters) :
    encodeFilters f =
      [entAge f, entKeywords f, entMechanics f, entPlayers f, entPlaytime f,
       entRank f, entRating f, entRatingCount f, entReverse f, entSort f,
       entThemes f, entWeight f] := rfl

/-- Entries whose keys all differ from `k` contribute nothing to a
`find?` for `k` over the present pairs, whether or not they carry a
value. -/
theorem find_present_append_none (k : String)
    (pre : List (String × Option String))
    (hpre : ∀ s ∈ pre.map Prod.fst, (s == k) = false)
    (rest : List (String × Option String)) :
    ((pre.filterMap presentPair) ++ rest).find? (fun e => e.1 == k) =
      rest.find? (fun e => e.1 == k) := by
  induction pre with
  | nil => rfl
  | cons kv pre ih =>
    have hkv : (kv.1 == k) = false := hpre kv.1 (by simp)
    have hrest : ∀ s ∈ pre.map Prod.fst, (s == k) = false :=
      fun s hs => hpre s (by simp [hs])
    cases hv : kv.2 with
    | none =>
      rw [List.filterMap_cons_none
        (show presentPair kv = none by simp [presentPair, hv])]
      exact ih hrest
    | some v0 =>
      rw [List.filterMap_cons_some
        (show presentPair kv = some (kv.1, some v0) by simp [presentPair, hv])]
      simp only [List.cons_append, List.find?_cons, hkv]
      exact ih hrest

/-- Looking up key `k` among the present entries of a table carrying
`k` once between keys all different from `k` returns exactly `k`'s
optional value. -/
theorem lookup_present_split (k : String) (v : Option String)
    (pre post : List (String × Option String)) (ka kb : List String)
    (hka : pre.map Prod.fst = ka) (hkb : post.map Prod.fst = kb)
    (hpre : ∀ s ∈ ka, (s == k) = false)
    (hpost : ∀ s ∈ kb, (s == k) = false) :
    lookupParam ((pre ++ (k, v) :: post).filterMap presentPair) k =
      v.map some := by
  subst hka
  subst hkb
  have hfind : ((pre ++ (k, v) :: post).filterMap presentPair).find?
      (fun e => e.1 == k) = v.map (fun v0 => (k, some v0)) := by
    rw [List.filterMap_append, find_present_append_none k pre hpre _]
    cases v with
    | none =>
      rw [List.filterMap_cons_none (show presentPair (k, none) = none from rfl)]
      have h0 := find_present_append_none k post hpost []
      rw [List.append_nil] at h0
      exact h0
    | some v0 =>
      rw [List.filterMap_cons_some
        (show presentPair (k, some v0) = some (k, some v0) from rfl)]
      simp only [List.find?_cons, beq_self_eq_true]
      rfl
  unfold lookupParam
  rw [hfind]
  cases v <;> rfl

/-- The `age` lookup over an encoded FilterSet. -/
theorem lookup_enc_age (f : SearchFilters) :
    lookupParam ((encodeFilters f).filterMap presentPair) "age" =
      (if f.age.isEmpty then none else some (joinDelim f.age)).map some := by
  rw [encodeFilters_ents]
  exact lookup_present_split "age" _ []
    [entKeywords f, entMechanics f, entPlayers f, entPlaytime f, entRank f,
     entRating f, entRatingCount f, entReverse f, entSort f, entThemes f,
     entWeight f] []
    ["keywords", "mechanics", "players", "playtime", "rank", "rating",
     "ratingCount", "reverse", "sort", "themes", "weight"]
    rfl rfl (by decide) (by decide)

/-- The `keywords` lookup over an encoded FilterSet. -/
theorem lookup_enc_keywords (f : SearchFilters) :
    lookupParam ((encodeFilters f).filterMap presentPair) "keywords" =
      (if f.keywords == "" then none else some f.keywords).map some := by
  rw [encodeFilters_ents]
  exact lookup_present_split "keywords" _ [entAge f]
    [entMechanics f, entPlayers f, entPlaytime f, entRank f, entRating f,
     entRatingCount f, entReverse f, entSort f, entThemes f, entWeight f]
    ["age"]
    ["mechanics", "players", "playtime", "rank", "rating", "ratingCount",
     "reverse", "sort", "themes", "weight"]
    rfl rfl (by decide) (by decide)

/-- The `mechanics` lookup over an encoded FilterSet. -/
theorem lookup_enc_mechanics (f : SearchFilters) :
    lookupParam ((encodeFilters f).filterMap presentPair) "mechanics" =
      (if f.mechanics.isEmpty then none
        else some (joinNumDelim f.mechanics)).map some := by
  rw [encodeFilters_ents]
  exact lookup_present_split "mechanics" _ [entAge f, entKeywords f]
    [entPlayers f, entPlaytime f, entRank f, entRating f, entRatingCount f,
     entReverse f, entSort f, entThemes f, entWeight f]
    ["age", "keywords"]
    ["players", "playtime", "rank", "rating", "ratingCount", "reverse",
     "sort", "themes", "weight"]
    rfl rfl (by decide) (by decide)

/-- The `players` lookup over an encoded FilterSet. -/
theorem lookup_enc_players (f : SearchFilters) :
    lookupParam ((encodeFilters f).filterMap presentPair) "players" =
      (if f.players.isEmpty then none
        else some (joinDelim f.players)).map some := by
  rw [encodeFilters_ents]
  exact lookup_present_split "players" _
    [entAge f, entKeywords f, entMechanics f]
    [entPlaytime f, entRank f, entRating f, entRatingCount f, entReverse f,
     entSort f, entThemes f, entWeight f]
    ["age", "keywords", "mechanics"]
    ["playtime", "rank", "rating", "ratingCount", "reverse", "sort",
     "themes", "weight"]
    rfl rfl (by decide) (by decide)

/-- The `playtime` lookup over an encoded FilterSet. -/
theorem lookup_enc_playtime (f : SearchFilters) :
    lookupParam ((encodeFilters f).filterMap presentPair) "playtime" =
      (if f.playtime.isEmpty then none
        else some (joinDelim f.playtime)).map some := by
  rw [encodeFilters_ents]
  exact lookup_present_split "playtime" _
    [entAge f, entKeywords f, entMechanics f, entPlayers f]
    [entRank f, entRating f, entRatingCount f, entReverse f, entSort f,
     entThemes f, entWeight f]
    ["age", "keywords", "mechanics", "players"]
    ["rank", "rating", "ratingCount", "reverse", "sort", "themes", "weight"]
    rfl rfl (by decide) (by decide)

/-- The `rank` lookup over an encoded FilterSet. -/
theorem lookup_enc_rank (f : SearchFilters) :
    lookupParam ((encodeFilters f).filterMap presentPair) "rank" =
      (if f.rank == "any" then none else some f.rank).map some := by
  rw [encodeFilters_ents]
  exact lookup_present_split "rank" _
    [entAge f, entKeywords f, entMechanics f, entPlayers f, entPlaytime f]
    [entRating f, entRatingCount f, entReverse f, entSort f, entThemes f,
     entWeight f]
    ["age", "keywords", "mechanics", "players", "playtime"]
    ["rating", "ratingCount", "reverse", "sort", "themes", "weight"]
    rfl rfl (by decide) (by decide)

/-- The `rating` lookup over an encoded FilterSet. -/
theorem lookup_enc_rating (f : SearchFilters) :
    lookupParam ((encodeFilters f).filterMap presentPair) "rating" =
      (if f.rating == "any" then none else some f.rating).map some := by
  rw [encodeFilters_ents]
  exact lookup_present_split "rating" _
    [entAge f, entKeywords f, entMechanics f, entPlayers f, entPlaytime f,
     entRank f]
    [entRatingCount f, entReverse f, entSort f, entThemes f, entWeight f]
    ["age", "keywords", "mechanics", "players", "playtime", "rank"]
    ["ratingCount", "reverse", "sort", "themes", "weight"]
    rfl rfl (by decide) (by decide)

/-- The `ratingCount` lookup over an encoded FilterSet. -/
theorem lookup_enc_ratingCount (f : SearchFilters) :
    lookupParam ((encodeFilters f).filterMap presentPair) "ratingCount" =
      (if f.ratingCount == "any" then none
        else some f.ratingCount).map some := by
  rw [encodeFilters_ents]
  exact lookup_present_split "ratingCount" _
    [entAge f, entKeywords f, entMechanics f, entPlayers f, entPlaytime f,
     entRank f, entRating f]
    [entReverse f, entSort f, entThemes f, entWeight f]
    ["age", "keywords", "mechanics", "players", "playtime", "rank", "rating"]
    ["reverse", "sort", "themes", "weight"]
    rfl rfl (by decide) (by decide)

/-- The `reverse` lookup over an encoded FilterSet. -/
theorem lookup_enc_reverse (f : SearchFilters) :
    lookupParam ((encodeFilters f).filterMap presentPair) "reverse" =
      (if f.reverse then some "1" else none).map some := by
  rw [encodeFilters_ents]
  exact lookup_present_split "reverse" _
    [entAge f, entKeywords f, entMechanics f, entPlayers f, entPlaytime f,
     entRank f, entRating f, entRatingCount f]
    [entSort f, entThemes f, entWeight f]
    ["age", "keywords", "mechanics", "players", "playtime", "rank", "rating",
     "ratingCount"]
    ["sort", "themes", "weight"]
    rfl rfl (by decide) (by decide)

/-- The `sort` lookup over an encoded FilterSet. -/
theorem lookup_enc_sort (f : SearchFilters) :
    lookupParam ((encodeFilters f).filterMap presentPair) "sort" =
      (if f.sort == "relevance" then none else some f.sort).map some := by
  rw [encodeFilters_ents]
  exact lookup_present_split "sort" _
    [entAge f, entKeywords f, entMechanics f, entPlayers f, entPlaytime f,
     entRank f, entRating f, entRatingCount f, entReverse f]
    [entThemes f, entWeight f]
    ["age", "keywords", "mechanics", "players", "playtime", "rank", "rating",
     "ratingCount", "reverse"]
    ["themes", "weight"]
    rfl rfl (by decide) (by decide)

/-- The `themes` lookup over an encoded FilterSet. -/
theorem lookup_enc_themes (f : SearchFilters) :
    lookupParam ((encodeFilters f).filterMap presentPair) "themes" =
      (if f.themes.isEmpty then none
        else some (joinNumDelim f.themes)).map some := by
  rw [encodeFilters_ents]
  exact lookup_present_split "themes" _
    [entAge f, entKeywords f, entMechanics f, entPlayers f, entPlaytime f,
     entRank f, entRating f, entRatingCount f, entReverse f, entSort f]
    [entWeight f]
    ["age", "keywords", "mechanics", "players", "playtime", "rank", "rating",
     "ratingCount", "reverse", "sort"]
    ["weight"]
    rfl rfl (by decide) (by decide)

/-- The `weight` lookup over an encoded FilterSet. -/
theorem lookup_enc_weight (f : SearchFilters) :
    lookupParam ((encodeFilters f).filterMap presentPair) "weight" =
      (if f.weight.isEmpty then none
        else some (joinDelim f.weight)).map some := by
  rw [encodeFilters_ents]
  exact lookup_present_split "weight" _
    [entAge f, entKeywords f, entMechanics f, entPlayers f, entPlaytime f,
     entRank f, entRating f, entRatingCount f, entReverse f, entSort f,
     entThemes f] []
    ["age", "keywords", "mechanics", "players", "playtime", "rank", "rating",
     "ratingCount", "reverse", "sort", "themes"]
    [] rfl rfl (by decide) (by decide)

/-- `StringParam`'s decode inverts a present-or-absent value. -/
theorem decodeStringParam_opt (o : Option String) :
    decodeStringParam (o.map some) = o := by
  cases o <;> rfl

/-- `BooleanParam`'s decode inverts the `reverse` encoding. -/
theorem decodeBooleanParam_enc (b : Bool) :
    decodeBooleanParam ((if b then some "1" else none).map some) =
      if b then some true else none := by
  cases b <;> rfl

/-- `DelimitedArrayParam`'s decode inverts the underscore join on
non-empty lists of underscore-free strings. -/
theorem decodeDelim_join (l : List String) (hne : l ≠ [])
    (hnu : ∀ v ∈ l, '_' ∉ v.data) :
    decodeDelimitedArray (some (some (joinDelim l))) = some l := by
  have hx : ∀ c ∈ l.map String.data, '_' ∉ c := by
    intro c hc
    rcases List.mem_map.mp hc with ⟨v, hv, rfl⟩
    exact hnu v hv
  have hls : l.map String.data ≠ [] :=
    fun e => hne (List.map_eq_nil_iff.mp e)
  show some (((joinDelim l).data.splitOn '_').map
    (fun cs => (⟨cs⟩ : String))) = some l
  rw [show (joinDelim l).data =
    List.intercalate ['_'] (l.map String.data) from rfl]
  rw [List.splitOn_intercalate (l.map String.data) '_' hx hls]
  rw [List.map_map]
  rw [show ((fun cs => (⟨cs⟩ : String)) ∘ String.data) = id from
    funext fun s => rfl]
  rw [List.map_id]

/-- `splitSign` leaves an all-digit token unchanged. -/
theorem splitSign_digits (cs : List Char)
    (hd : ∀ c ∈ cs, c.isDigit = true) : splitSign cs = (false, cs) := by
  cases cs with
  | nil => rfl
  | cons c t =>
    have hc := hd c (List.mem_cons_self c t)
    simp only [splitSign]
    rw [if_neg (digit_ne (show ('-').isDigit = false by decide) hc)]
    rw [if_neg (digit_ne (show ('+').isDigit = false by decide) hc)]

/-- Decoding inverts the decimal printing of an integer. -/
theorem decodeIntEntry_intChars (n : ℤ) : decodeIntEntry (intChars n) = n := by
  obtain ⟨hne, hdig, hval⟩ := natChars_spec n.natAbs
  have hall : (natChars n.natAbs).all Char.isDigit = true :=
    List.all_eq_true.mpr hdig
  have hnil : (natChars n.natAbs).isEmpty = false := by
    cases hnc : natChars n.natAbs with
    | nil => exact absurd hnc hne
    | cons _ _ => rfl
  by_cases hn : n < 0
  · have h1 : intChars n = '-' :: natChars n.natAbs := by
      simp only [intChars, if_pos hn, List.singleton_append]
    have h2 : splitSign ('-' :: natChars n.natAbs) =
        (true, natChars n.natAbs) := by
      simp [splitSign]
    rw [h1]
    simp only [decodeIntEntry, h2]
    rw [hnil, if_neg (fun hb => Bool.noConfusion hb), if_pos hall, hval]
    show (-1) * ((n.natAbs : ℕ) : ℤ) = n
    omega
  · have h1 : intChars n = natChars n.natAbs := by
      simp only [intChars, if_neg hn, List.nil_append]
    rw [h1]
    simp only [decodeIntEntry, splitSign_digits _ hdig]
    rw [hnil, if_neg (fun hb => Bool.noConfusion hb), if_pos hall, hval]
    show (1 : ℤ) * ((n.natAbs : ℕ) : ℤ) = n
    omega

/-- The decimal printing of an integer never contains an underscore. -/
theorem intChars_no_underscore (n : ℤ) : '_' ∉ intChars n := by
  intro hm
  simp only [intChars] at hm
  rcases List.mem_append.mp hm with h1 | h2
  · by_cases hn : n < 0
    · rw [if_pos hn] at h1
      simp at h1
    · rw [if_neg hn] at h1
      exact absurd h1 (List.not_mem_nil _)
  · exact absurd ((natChars_spec n.natAbs).2.1 '_' h2) (by decide)

/-- `DelimitedNumericArrayParam`'s decode inverts the underscore join
of printed integers on non-empty lists. -/
theorem decodeNumDelim_join (l : List ℤ) (hne : l ≠ []) :
    decodeDelimitedNumericArray (some (some (joinNumDelim l))) = some l := by
  have hx : ∀ c ∈ l.map intChars, '_' ∉ c := by
    intro c hc
    rcases List.mem_map.mp hc with ⟨n, _, rfl⟩
    exact intChars_no_underscore n
  have hls : l.map intChars ≠ [] :=
    fun e => hne (List.map_eq_nil_iff.mp e)
  show some (((joinNumDelim l).data.splitOn '_').map decodeIntEntry) = some l
  rw [show (joinNumDelim l).data =
    List.intercalate ['_'] (l.map intChars) from rfl]
  rw [List.splitOn_intercalate (l.map intChars) '_' hx hls]
  rw [List.map_map]
  rw [show (decodeIntEntry ∘ intChars) = id from
    funext fun n => decodeIntEntry_intChars n]
  rw [List.map_id]

/-- Two FilterSets agreeing on every field are equal. -/
theorem sf_ext {a b : SearchFilters} (h1 : a.keywords = b.keywords)
    (h2 : a.sort = b.sort) (h3 : a.reverse = b.reverse) (h4 : a.rank = b.rank)
    (h5 : a.rating = b.rating) (h6 : a.ratingCount = b.ratingCount)
    (h7 : a.weight = b.weight) (h8 : a.age = b.age)
    (h9 : a.playtime = b.playtime) (h10 : a.players = b.players)
    (h11 : a.mechanics = b.mechanics) (h12 : a.themes = b.themes) :
    a = b := by
  cases a
  cases b
  congr 1

/-- C3: for every reachable FilterSet `f`, decoding the encoded
parameter string recovers `f` exactly; every field equal to its default
value is omitted from the encoded parameter string (its key does not
occur among the parsed parameters); and the all-default FilterSet
encodes to the empty string. -/
theorem c3_roundtrip (f : SearchFilters) (h : ReachableF f) :
    decodeFilterSet (encodeFilterSet f) = f ∧
    (f.keywords = "" →
      lookupParam (parsePairs (encodeFilterSet f).data) "keywords" = none) ∧
    (f.sort = "relevance" →
      lookupParam (parsePairs (encodeFilterSet f).data) "sort" = none) ∧
    (f.reverse = false →
      lookupParam (parsePairs (encodeFilterSet f).data) "reverse" = none) ∧
    (f.rank = "any" →
      lookupParam (parsePairs (encodeFilterSet f).data) "rank" = none) ∧
    (f.rating = "any" →
      lookupParam (parsePairs (encodeFilterSet f).data) "rating" = none) ∧
    (f.ratingCount = "any" →
      lookupParam (parsePairs (encodeFilterSet f).data) "ratingCount" = none) ∧
    (f.weight = [] →
      lookupParam (parsePairs (encodeFilterSet f).data) "weight" = none) ∧
    (f.age = [] →
      lookupParam (parsePairs (encodeFilterSet f).data) "age" = none) ∧
    (f.playtime = [] →
      lookupParam (parsePairs (encodeFilterSet f).data) "playtime" = none) ∧
    (f.players = [] →
      lookupParam (parsePairs (encodeFilterSet f).data) "players" = none) ∧
    (f.mechanics = [] →
      lookupParam (parsePairs (encodeFilterSet f).data) "mechanics" = none) ∧
    (f.themes = [] →
      lookupParam (parsePairs (encodeFilterSet f).data) "themes" = none) ∧
    encodeFilterSet DEFAULT_SEARCH_FILTERS = "" := by
  obtain ⟨hSo, hRk, hRt, hRc, hW, hA, hPt, hPl⟩ := h
  have hE : parsePairs (encodeFilterSet f).data =
      (encodeFilters f).filterMap presentPair :=
    parse_stringify (encodeFilters f)
  refine ⟨?_, ?_, ?_, ?_, ?_, ?_, ?_, ?_, ?_, ?_, ?_, ?_, ?_, by decide⟩
  · have h1 : decodeStringParam (lookupParam
        (parsePairs (encodeFilterSet f).data) "keywords") =
        if f.keywords == "" then none else some f.keywords := by
      rw [hE, lookup_enc_keywords]
      exact decodeStringParam_opt _
    have h2 : decodeStringParam (lookupParam
        (parsePairs (encodeFilterSet f).data) "sort") =
        if f.sort == "relevance" then none else some f.sort := by
      rw [hE, lookup_enc_sort]
      exact decodeStringParam_opt _
    have h3 : decodeBooleanParam (lookupParam
        (parsePairs (encodeFilterSet f).data) "reverse") =
        if f.reverse then some true else none := by
      rw [hE, lookup_enc_reverse]
      exact decodeBooleanParam_enc f.reverse
    have h4 : decodeStringParam (lookupParam
        (parsePairs (encodeFilterSet f).data) "rank") =
        if f.rank == "any" then none else some f.rank := by
      rw [hE, lookup_enc_rank]
      exact decodeStringParam_opt _
    have h5 : decodeStringParam (lookupParam
        (parsePairs (encodeFilterSet f).data) "rating") =
        if f.rating == "any" then none else some f.rating := by
      rw [hE, lookup_enc_rating]
      exact decodeStringParam_opt _
    have h6 : decodeStringParam (lookupParam
        (parsePairs (encodeFilterSet f).data) "ratingCount") =
        if f.ratingCount == "any" then none else some f.ratingCount := by
      rw [hE, lookup_enc_ratingCount]
      exact decodeStringParam_opt _
    have h7 : decodeDelimitedArray (lookupParam
        (parsePairs (encodeFilterSet f).data) "weight") =
        if f.weight.isEmpty then none else some f.weight := by
      rw [hE, lookup_enc_weight]
      cases hw : f.weight.isEmpty with
      | true => rfl
      | false =>
        refine decodeDelim_join f.weight
          (fun e => by rw [e] at hw; exact Bool.noConfusion hw) ?_
        intro v hv
        have hm := hW v hv
        simp only [List.mem_cons, List.not_mem_nil, or_false] at hm
        rcases hm with rfl | rfl | rfl | rfl <;> decide
    have h8 : decodeDelimitedArray (lookupParam
        (parsePairs (encodeFilterSet f).data) "age") =
        if f.age.isEmpty then none else some f.age := by
      rw [hE, lookup_enc_age]
      cases hw : f.age.isEmpty with
      | true => rfl
      | false =>
        refine decodeDelim_join f.age
          (fun e => by rw [e] at hw; exact Bool.noConfusion hw) ?_
        intro v hv
        have hm := hA v hv
        simp only [List.mem_cons, List.not_mem_nil, or_false] at hm
        rcases hm with rfl | rfl | rfl | rfl | rfl <;> decide
    have h9 : decodeDelimitedArray (lookupParam
        (parsePairs (encodeFilterSet f).data) "playtime") =
        if f.playtime.isEmpty then none else some f.playtime := by
      rw [hE, lookup_enc_playtime]
      cases hw : f.playtime.isEmpty with
      | true => rfl
      | false =>
        refine decodeDelim_join f.playtime
          (fun e => by rw [e] at hw; exact Bool.noConfusion hw) ?_
        intro v hv
        have hm := hPt v hv
        simp only [List.mem_cons, List.not_mem_nil, or_false] at hm
        rcases hm with rfl | rfl | rfl | rfl <;> decide
    have h10 : decodeDelimitedArray (lookupParam
        (parsePairs (encodeFilterSet f).data) "players") =
        if f.players.isEmpty then none else some f.players := by
      rw [hE, lookup_enc_players]
      cases hw : f.players.isEmpty with
      | true => rfl
      | false =>
        refine decodeDelim_join f.players
          (fun e => by rw [e] at hw; exact Bool.noConfusion hw) ?_
        intro v hv
        have hm := hPl v hv
        simp only [List.mem_cons, List.not_mem_nil, or_false] at hm
        rcases hm with rfl | rfl | rfl | rfl | rfl <;> decide
    have h11 : decodeDelimitedNumericArray (lookupParam
        (parsePairs (encodeFilterSet f).data) "mechanics") =
        if f.mechanics.isEmpty then none else some f.mechanics := by
      rw [hE, lookup_enc_mechanics]
      cases hw : f.mechanics.isEmpty with
      | true => rfl
      | false =>
        exact decodeNumDelim_join f.mechanics
          (fun e => by rw [e] at hw; exact Bool.noConfusion hw)
    have h12 : decodeDelimitedNumericArray (lookupParam
        (parsePairs (encodeFilterSet f).data) "themes") =
        if f.themes.isEmpty then none else some f.themes := by
      rw [hE, lookup_enc_themes]
      cases hw : f.themes.isEmpty with
      | true => rfl
      | false =>
        exact decodeNumDelim_join f.themes
          (fun e => by rw [e] at hw; exact Bool.noConfusion hw)
    have hd : decodeQueryParamsStr (encodeFilterSet f) =
        ⟨if f.keywords == "" then none else some f.keywords,
         if f.sort == "relevance" then none else some f.sort,
         if f.reverse then some true else none,
         if f.rank == "any" then none else some f.rank,
         if f.rating == "any" then none else some f.rating,
         if f.ratingCount == "any" then none else some f.ratingCount,
         if f.weight.isEmpty then none else some f.weight,
         if f.age.isEmpty then none else some f.age,
         if f.playtime.isEmpty then none else some f.playtime,
         if f.players.isEmpty then none else some f.players,
         if f.mechanics.isEmpty then none else some f.mechanics,
         if f.themes.isEmpty then none else some f.themes⟩ := by
      simp only [decodeQueryParamsStr]
      rw [h1, h2, h3, h4, h5, h6, h7, h8, h9, h10, h11, h12]
    show mergeDecoded DEFAULT_SEARCH_FILTERS
      (decodeQueryParamsStr (encodeFilterSet f)) = f
    rw [hd]
    refine sf_ext ?_ ?_ ?_ ?_ ?_ ?_ ?_ ?_ ?_ ?_ ?_ ?_
    · cases hc : f.keywords == "" with
      | true =>
        exact (eq_of_beq hc).symm
      | false =>
        exact if_neg (fun hb => absurd hc (by rw [← eq_of_beq hb]; decide))
    · cases hc : f.sort == "relevance" with
      | true =>
        exact (eq_of_beq hc).symm
      | false =>
        exact if_neg (fun hb => absurd hc (by rw [← eq_of_beq hb]; decide))
    · cases hr : f.reverse with
      | false => rfl
      | true => rfl
    · cases hc : f.rank == "any" with
      | true =>
        exact (eq_of_beq hc).symm
      | false =>
        exact if_neg (fun hb => absurd hc (by rw [← eq_of_beq hb]; decide))
    · cases hc : f.rating == "any" with
      | true =>
        exact (eq_of_beq hc).symm
      | false =>
        exact if_neg (fun hb => absurd hc (by rw [← eq_of_beq hb]; decide))
    · cases hc : f.ratingCount == "any" with
      | true =>
        exact (eq_of_beq hc).symm
      | false =>
        exact if_neg (fun hb => absurd hc (by rw [← eq_of_beq hb]; decide))
    · cases hc : f.weight.isEmpty with
      | true =>
        exact (List.isEmpty_iff.mp hc).symm
      | false =>
        exact if_neg (fun hb => by
          rw [hc, Bool.and_false] at hb
          exact Bool.noConfusion hb)
    · cases hc : f.age.isEmpty with
      | true =>
        exact (List.isEmpty_iff.mp hc).symm
      | false =>
        exact if_neg (fun hb => by
          rw [hc, Bool.and_false] at hb
          exact Bool.noConfusion hb)
    · cases hc : f.playtime.isEmpty with
      | true =>
        exact (List.isEmpty_iff.mp hc).symm
      | false =>
        exact if_neg (fun hb => by
          rw [hc, Bool.and_false] at hb
          exact Bool.noConfusion hb)
    · cases hc : f.players.isEmpty with
      | true =>
        exact (List.isEmpty_iff.mp hc).symm
      | false =>
        exact if_neg (fun hb => by
          rw [hc, Bool.and_false] at hb
          exact Bool.noConfusion hb)
    · cases hc : f.mechanics.isEmpty with
      | true =>
        exact (List.isEmpty_iff.mp hc).symm
      | false =>
        exact if_neg (fun hb => by
          rw [hc, Bool.and_false] at hb
          exact Bool.noConfusion hb)
    · cases hc : f.themes.isEmpty with
      | true =>
        exact (List.isEmpty_iff.mp hc).symm
      | false =>
        exact if_neg (fun hb => by
          rw [hc, Bool.and_false] at hb
          exact Bool.noConfusion hb)
  · intro e
    rw [hE, lookup_enc_keywords,
      if_pos (show (f.keywords == "") = true by simp [e])]
    rfl
  · intro e
    rw [hE, lookup_enc_sort,
      if_pos (show (f.sort == "relevance") = true by simp [e])]
    rfl
  · intro e
    rw [hE, lookup_enc_reverse,
      if_neg (show ¬(f.reverse = true) from
        fun hb => by rw [e] at hb; exact Bool.noConfusion hb)]
    rfl
  · intro e
    rw [hE, lookup_enc_rank, if_pos (show (f.rank == "any") = true by simp [e])]
    rfl
  · intro e
    rw [hE, lookup_enc_rating,
      if_pos (show (f.rating == "any") = true by simp [e])]
    rfl
  · intro e
    rw [hE, lookup_enc_ratingCount,
      if_pos (show (f.ratingCount == "any") = true by simp [e])]
    rfl
  · intro e
    rw [hE, lookup_enc_weight,
      if_pos (show f.weight.isEmpty = true by simp [e])]
    rfl
  · intro e
    rw [hE, lookup_enc_age, if_pos (show f.age.isEmpty = true by simp [e])]
    rfl
  · intro e
    rw [hE, lookup_enc_playtime,
      if_pos (show f.playtime.isEmpty = true by simp [e])]
    rfl
  · intro e
    rw [hE, lookup_enc_players,
      if_pos (show f.players.isEmpty = true by simp [e])]
    rfl
  · intro e
    rw [hE, lookup_enc_mechanics,
      if_pos (show f.mechanics.isEmpty = true by simp [e])]
    rfl
  · intro e
    rw [hE, lookup_enc_themes,
      if_pos (show f.themes.isEmpty = true by simp [e])]
    rfl

/-- Witness for C3: the round trip of the theorem evaluated at a
concrete reachable FilterSet exercising every codec. -/
theorem c3_roundtrip_witness :
    ReachableF sampleF ∧
      decodeFilterSet (encodeFilterSet sampleF) = sampleF :=
  ⟨by unfold ReachableF; decide,
   (c3_roundtrip sampleF (by unfold ReachableF; decide)).1⟩

end BGS
